import Mathlib

/-!
Verification of the SemanticUnweaver document-preparation core.

The TypeScript sources are shallowly embedded: JS strings are modelled as
`List Char` (`Str`), JS regular-expression operations are implemented as
executable character-list scanners that follow the leftmost-match /
greedy-with-backtracking semantics of the concrete patterns appearing in the
source, and the stateful `forEach`/`push` loops become folds.  Chunk and
document identifiers in the source are produced by `Math.random`; they are
opaque, no claim refers to them, so generated chunk ids are omitted from the
model (document ids are inputs and are kept).
-/

namespace SemanticUnweaver

/-- JS strings are modelled as lists of characters. -/
abbrev Str := List Char

/-- Convert a Lean string literal to the character-list model. -/
def str (s : String) : Str := s.data

/-- JS whitespace (`\s`), restricted to the ASCII characters that occur in
this codebase: space, tab, line feed, carriage return, vertical tab, form
feed. -/
def isJsWs (c : Char) : Bool :=
  c = ' ' || c = '\t' || c = '\n' || c = '\r' ||
  c = Char.ofNat 11 || c = Char.ofNat 12

/-- JS `String.prototype.trim`: drop whitespace from both ends. -/
def jsTrim (s : Str) : Str :=
  ((s.dropWhile isJsWs).reverse.dropWhile isJsWs).reverse

/-- ASCII `String.prototype.toLowerCase`. -/
def jsToLower (s : Str) : Str :=
  s.map fun c => if 'A' ≤ c ∧ c ≤ 'Z' then Char.ofNat (c.toNat + 32) else c

/-- Split on the regex `/\r?\n/` (used by `parseCSVStructure` and
`analyzeMarkdownLevels`): a separator is either the pair `\r\n` or a bare
`\n`; a lone `\r` is not a separator. -/
def splitCRLF (s : Str) : List Str :=
  go [] s
where
  go (acc : Str) : Str → List Str
    | [] => [acc.reverse]
    | '\r' :: '\n' :: rest => acc.reverse :: go [] rest
    | '\n' :: rest => acc.reverse :: go [] rest
    | c :: rest => go (c :: acc) rest

/-- JS `text.split(c)` for a single-character separator (no regex). -/
def splitChar (sep : Char) (s : Str) : List Str :=
  go [] s
where
  go (acc : Str) : Str → List Str
    | [] => [acc.reverse]
    | c :: rest =>
      if c = sep then acc.reverse :: go [] rest else go (c :: acc) rest

/-- Join a list of strings with a separator (JS `Array.prototype.join`). -/
def joinSep (sep : Str) : List Str → Str
  | [] => []
  | [x] => x
  | x :: y :: rest => x ++ sep ++ joinSep sep (y :: rest)

-- ---------------------------------------------------------------------------
-- src/utils/textProcessing.ts : CSV parsing
-- ---------------------------------------------------------------------------

/-- One global pass of `.replace(/^"|"$/g, '')`: remove one leading and one
trailing double quote (each at most once).  The global scan first removes a
quote at position 0, then a quote that ends the (remaining) string. -/
def stripEdgeQuotes (s : Str) : Str :=
  let s1 := match s with
    | '"' :: rest => rest
    | other => other
  match s1.reverse with
  | '"' :: rest => rest.reverse
  | _ => s1

/-- Global `.replace(/""/g, '"')`: collapse each non-overlapping doubled
quote pair, scanning left to right. -/
def collapseDoubledQuotes : Str → Str
  | '"' :: '"' :: rest => '"' :: collapseDoubledQuotes rest
  | c :: rest => c :: collapseDoubledQuotes rest
  | [] => []

/-- Post-processing of a raw CSV field:
`.trim().replace(/^"|"$/g, '').replace(/""/g, '"')`. -/
def csvField (s : Str) : Str :=
  collapseDoubledQuotes (stripEdgeQuotes (jsTrim s))

/-- Loop body of `splitCSVLine`: walks the raw line character by character,
toggling `inQuote` on a `"` not preceded by a backslash, and splitting on
commas outside quotes.  `prev` is the previous raw character of the line. -/
def splitCSVLineGo (inQuote : Bool) (prev : Option Char) (cur : Str) :
    Str → List Str
  | [] => [csvField cur.reverse]
  | c :: rest =>
    let inQ := if c = '"' ∧ prev ≠ some '\\' then !inQuote else inQuote
    if c = ',' ∧ inQ = false then
      csvField cur.reverse :: splitCSVLineGo inQ (some c) [] rest
    else
      splitCSVLineGo inQ (some c) (c :: cur) rest

/-- `splitCSVLine` from src/utils/textProcessing.ts. -/
def splitCSVLine (line : Str) : List Str :=
  splitCSVLineGo false none [] line

structure CSVStructure where
  headers : List Str
  rows : List (List Str)
  totalRows : Nat
deriving DecidableEq, Repr

/-- `parseCSVStructure` from src/utils/textProcessing.ts: split content on
`/\r?\n/`, keep the non-blank lines, and require at least two of them;
otherwise the degenerate empty table is returned (no error is signalled:
the function is total). -/
def parseCSVStructure (content : Str) : CSVStructure :=
  let lines := (splitCRLF content).filter fun l => !(jsTrim l).isEmpty
  match lines with
  | l0 :: l1 :: rest =>
    let headers := splitCSVLine l0
    let rows := (l1 :: rest).map splitCSVLine
    { headers := headers, rows := rows, totalRows := rows.length }
  | _ => { headers := [], rows := [], totalRows := 0 }

-- ---------------------------------------------------------------------------
-- src/utils/textProcessing.ts : guessCSVConfig
-- ---------------------------------------------------------------------------

/-- Digit test for the decimal part of `Number(...)`. -/
def isDigitCh (c : Char) : Bool := '0' ≤ c ∧ c ≤ '9'

/-- Recognizer for the decimal body of a JS numeric literal:
`digits+ ('.' digits*)? | '.' digits+`, then an optional exponent
`[eE][+-]?digits+`. -/
def decimalBodyOk (s : Str) : Bool :=
  let intPart := s.takeWhile isDigitCh
  let rest := s.dropWhile isDigitCh
  let mantissaOk : Bool × Str :=
    if intPart.length > 0 then
      match rest with
      | '.' :: r2 => (true, r2.dropWhile isDigitCh)
      | r2 => (true, r2)
    else
      match rest with
      | '.' :: r2 =>
        let frac := r2.takeWhile isDigitCh
        (frac.length > 0, r2.dropWhile isDigitCh)
      | _ => (false, rest)
  match mantissaOk with
  | (false, _) => false
  | (true, r3) =>
    match r3 with
    | [] => true
    | e :: r4 =>
      if e = 'e' ∨ e = 'E' then
        let r5 := match r4 with
          | '+' :: r => r
          | '-' :: r => r
          | r => r
        r5.length > 0 && r5.all isDigitCh
      else false

def isHexDigitCh (c : Char) : Bool :=
  isDigitCh c || ('a' ≤ c ∧ c ≤ 'f') || ('A' ≤ c ∧ c ≤ 'F')

/-- `isNaN(Number(s))` for a JS string: whitespace is trimmed; the empty
string converts to 0 (not NaN); otherwise the trimmed string must be a
signed decimal literal, a signed `Infinity`, or an unsigned radix literal
(`0x`, `0o`, `0b`). -/
def jsNumberIsNaN (s : Str) : Bool :=
  let t := jsTrim s
  if t.isEmpty then false
  else
    let body := match t with
      | '+' :: r => some r
      | '-' :: r => some r
      | r => some r
    let signless : Str := body.getD t
    if signless = str "Infinity" then false
    else
      match t with
      | '0' :: x :: r =>
        if x = 'x' ∨ x = 'X' then !(r.length > 0 && r.all isHexDigitCh)
        else if x = 'o' ∨ x = 'O' then
          !(r.length > 0 && r.all fun c => '0' ≤ c ∧ c ≤ '7')
        else if x = 'b' ∨ x = 'B' then
          !(r.length > 0 && r.all fun c => c = '0' ∨ c = '1')
        else !decimalBodyOk signless
      | _ => !decimalBodyOk signless

/-- JS substring containment (`String.prototype.includes`): `sub` occurs
contiguously inside `s`. -/
def jsIncludes (s sub : Str) : Bool :=
  (List.range (s.length + 1)).any fun i => sub.isPrefixOf (s.drop i)

structure CSVColumnConfig where
  analyzeCols : List Nat
  contextCols : List Nat
deriving DecidableEq, Repr

/-- Column statistics loop of `guessCSVConfig`: over the first 30 rows,
count the rows where column `i` is a non-empty string, sum their lengths,
and count the non-numeric ones (`isNaN(Number(v))`). -/
def columnStats (rows : List (List Str)) (i : Nat) : Nat × Nat × Nat :=
  (rows.take 30).foldl
    (fun acc row =>
      let v := row.getD i []
      if v.isEmpty then acc
      else (acc.1 + (if jsNumberIsNaN v then 1 else 0),
            acc.2.1 + v.length, acc.2.2 + 1))
    (0, 0, 0)

/-- Per-column classification pass of `guessCSVConfig` (the `forEach` over
`headers`), accumulating `analyzeCols` and `contextCols` in column order.
The float comparisons `avgLen > 30`, `avgLen < 20`, `nonNumRatio > 0.6`,
`nonNumRatio > 0.1`, `nonNumRatio < 0.1` are expressed by exact integer
cross-multiplication; with at most 30 samples the double-precision
computations in the source decide each comparison identically. -/
def guessPass (headers : List Str) (rows : List (List Str)) :
    List Nat × List Nat :=
  (headers.enum).foldl
    (fun (acc : List Nat × List Nat) hi =>
      let i := hi.1
      let h := hi.2
      let st := columnStats rows i
      let nonNumeric := st.1
      let totalLen := st.2.1
      let validCount := st.2.2
      if validCount > 0 then
        let name := jsToLower h
        let isExplicitText :=
          jsIncludes name (str "text") || jsIncludes name (str "comment") ||
          jsIncludes name (str "desc") || jsIncludes name (str "content") ||
          jsIncludes name (str "feedback") || jsIncludes name (str "improve") ||
          jsIncludes name (str "work") || jsIncludes name (str "response") ||
          jsIncludes name (str "valuable")
        let isLongText :=
          10 * nonNumeric > 6 * validCount && totalLen > 30 * validCount
        let isId :=
          jsIncludes name (str "id") || jsIncludes name (str "code") ||
          name = str "no"
        let isCategory :=
          totalLen < 20 * validCount && 10 * nonNumeric > validCount &&
          !isExplicitText
        let isMetric := 10 * nonNumeric < validCount
        if isExplicitText || isLongText then (acc.1 ++ [i], acc.2)
        else if isCategory || isId || isMetric then (acc.1, acc.2 ++ [i])
        else acc
      else acc)
    ([], [])

/-- `guessCSVConfig` from src/utils/textProcessing.ts: run the heuristic
pass, then force the last column into `analyzeCols` when the pass found
none and at least one header exists. -/
def guessCSVConfig (structure_ : CSVStructure) : CSVColumnConfig :=
  let pass := guessPass structure_.headers structure_.rows
  let analyzeCols :=
    if pass.1.length = 0 ∧ structure_.headers.length > 0 then
      pass.1 ++ [structure_.headers.length - 1]
    else pass.1
  { analyzeCols := analyzeCols, contextCols := pass.2 }

-- ---------------------------------------------------------------------------
-- Heading-regex primitives shared by ingestion and segmentation
-- ---------------------------------------------------------------------------

/-- Largest index of `l` holding a character other than a line feed. -/
def lastNonLF (l : Str) : Option Nat :=
  match l.reverse.findIdx? fun c => c ≠ '\n' with
  | some k => some (l.length - 1 - k)
  | none => none

/-- Length consumed by a match of the regex tail `\s+.+$` (with the `m`
flag) starting at the head of `s`, or `none` when it cannot match there.
`\s+` greedily consumes the whitespace run; `.` does not match a line feed
but does match other whitespace, so when the run reaches a line end the
engine backtracks `\s+` to the last non-line-feed character of the run and
lets `.+` consume it. -/
def wsPlusDotPlusLen (s : Str) : Option Nat :=
  let w := (s.takeWhile isJsWs).length
  if w = 0 then none
  else
    let rest := s.drop w
    if rest.isEmpty ∨ rest.headD ' ' = '\n' then
      match lastNonLF (s.take w) with
      | some p => if 1 ≤ p then some (p + 1) else none
      | none => none
    else
      some (w + (rest.takeWhile fun c => c ≠ '\n').length)

/-- Match length at the head of `s` for the heading regex
`^#{1,6}\s+.+$` (flag `m`) used by ingestion to detect Markdown: a run of
1 to 6 hash characters at a line start (since `#{1,6}` is followed by `\s`,
a longer run cannot match), then `\s+.+$`. -/
def mdHeadingLen (s : Str) : Option Nat :=
  let h := (s.takeWhile fun c => c = '#').length
  if 1 ≤ h ∧ h ≤ 6 then (wsPlusDotPlusLen (s.drop h)).map (h + ·)
  else none

/-- Does `p` hold at some line start of `s` (position 0 or any position
immediately after a line feed)?  This is multiline-regex `test`. -/
def anyLineStart (p : Str → Bool) (s : Str) : Bool :=
  p s || go s
where
  go : Str → Bool
    | [] => false
    | '\n' :: rest => p rest || go rest
    | _ :: rest => go rest

/-- `/^#{1,6}\s+.+$/m.test(text)` from src/services/step1_ingest.ts. -/
def hasMarkdownHeading (text : Str) : Bool :=
  anyLineStart (fun s => (mdHeadingLen s).isSome) text

-- ---------------------------------------------------------------------------
-- src/services/step1_ingest.ts (src/unnamed/part_003)
-- ---------------------------------------------------------------------------

inductive DocType where
  | text
  | csv
  | markdown
deriving DecidableEq, Repr

/-- A source document.  `id` is an opaque `Math.random`-generated string in
the source; it is supplied as an argument here.  `csvHeaders` models the
optional TypeScript field (`undefined` is `none`). -/
structure SourceDocument where
  id : Str
  name : Str
  content : Str
  type : DocType
  csvHeaders : Option (List Str)
deriving DecidableEq, Repr

/-- `file.name.split('.').pop()` — the final dot-separated segment. -/
def lastDotSegment (name : Str) : Str :=
  (splitChar '.' name).getLastD []

/-- Document-kind classification of `ingestFile`: trusted extensions first,
then the strict tabular content heuristic, then the Markdown heading test,
else plain text. -/
def ingestFileType (name ftype text : Str) : DocType :=
  let ext := jsToLower (lastDotSegment name)
  if ext = str "csv" ∨ ftype = str "text/csv" then .csv
  else if ext = str "md" ∨ ext = str "markdown" then .markdown
  else
    let csvAttempt := parseCSVStructure text
    let colCount := csvAttempt.headers.length
    if 2 ≤ colCount ∧ 0 < csvAttempt.rows.length ∧
       ((csvAttempt.rows.take 5).all fun r => r.length == colCount) ∧
       0 < csvAttempt.totalRows then .csv
    else if hasMarkdownHeading text then .markdown
    else .text

/-- `ingestFile` from step1_ingest: classify, then, for a `csv` document,
store the parsed header row — but the source only keeps it when it is
non-empty (`csvHeaders.length > 0 ? csvHeaders : undefined`). -/
def ingestFile (idv name ftype text : Str) : SourceDocument :=
  let ty := ingestFileType name ftype text
  let csvHeaders := if ty = .csv then (parseCSVStructure text).headers else []
  { id := idv, name := name, content := text, type := ty,
    csvHeaders := if csvHeaders.length > 0 then some csvHeaders else none }

/-- `ingestManualText` from step1_ingest: Markdown check first, then the
strict CSV signal overrides; `csvHeaders` is present exactly for `csv`. -/
def ingestManualText (idv text : Str) : SourceDocument :=
  let ty1 : DocType := if hasMarkdownHeading text then .markdown else .text
  let csvAttempt := parseCSVStructure text
  let ty : DocType :=
    if 2 ≤ csvAttempt.headers.length ∧ 0 < csvAttempt.rows.length ∧
       ((csvAttempt.rows.take 5).all fun r =>
         r.length == csvAttempt.headers.length) then .csv
    else ty1
  { id := idv, name := str "Manual Input", content := text, type := ty,
    csvHeaders := if ty = .csv then some (parseCSVStructure text).headers
                  else none }

-- ---------------------------------------------------------------------------
-- Chunk data model (src/types.ts)
-- ---------------------------------------------------------------------------

inductive Granularity where
  | WHOLE
  | PARAGRAPH
  | SENTENCE
  | LINE
  | TURN
  | SECTION
  | HEADING
  | SUBSECTION
  | FILE
  | RESPONSE
  | PHRASE
  | ROW_COMBINED
  | ROW_DISTINCT_COLUMNS
deriving DecidableEq, Repr

/-- A chunk.  The source also carries an `id` (a fresh `Math.random`
string per chunk — opaque and referenced by no claim, so omitted here) and
optional enrichment fields (`sentiment`, `analysis`), which the core never
writes; the core always sets `tags` to the empty list. -/
structure Chunk where
  text : Str
  type : Granularity
  sourceId : Option Str := none
  sourceName : Option Str := none
  tags : List Str := []
deriving DecidableEq, Repr

-- ---------------------------------------------------------------------------
-- src/utils/textProcessing.ts : n-gram extraction
-- ---------------------------------------------------------------------------

/-- The fixed stop-word set (`STOP_WORDS`), kept in source order including
the duplicated entry; only membership matters. -/
def stopWords : List Str :=
  [str "the", str "and", str "or", str "but", str "in", str "on", str "at",
   str "to", str "a", str "an", str "is", str "are", str "was", str "were",
   str "of", str "for", str "it", str "this", str "that", str "with",
   str "as", str "by", str "from", str "be", str "have", str "has",
   str "had", str "not", str "are", str "will", str "can", str "would",
   str "should", str "could", str "i", str "you", str "he", str "she",
   str "we", str "they"]

def isStopWord (t : Str) : Bool := stopWords.contains t

/-- JS `\w`: letters, digits, underscore. -/
def isWordCh (c : Char) : Bool :=
  ('a' ≤ c ∧ c ≤ 'z') || ('A' ≤ c ∧ c ≤ 'Z') || isDigitCh c || c = '_'

/-- Leftmost, non-overlapping regex split.  At each position the matcher is
tried (returning the match length); on a match of positive length the
consumed characters separate two pieces, otherwise the scan advances one
character.  `fuel` bounds the recursion; callers pass the string length
plus one, which always suffices since every step consumes at least one
character. -/
def splitByMatcher (m : Str → Option Nat) : Nat → Str → Str → List Str
  | 0, acc, s => [acc.reverse ++ s]
  | _ + 1, acc, [] => [acc.reverse]
  | fuel + 1, acc, c :: rest =>
    match m (c :: rest) with
    | some (n + 1) => acc.reverse :: splitByMatcher m fuel [] ((c :: rest).drop (n + 1))
    | _ => splitByMatcher m fuel (c :: acc) rest

def splitRe (m : Str → Option Nat) (s : Str) : List Str :=
  splitByMatcher m (s.length + 1) [] s

/-- Matcher for `/\s+/`: a maximal run of whitespace. -/
def wsRunLen (s : Str) : Option Nat :=
  let w := (s.takeWhile isJsWs).length
  if w = 0 then none else some w

/-- Tokenization of `generateNgrams`: lower-case, strip characters that are
neither word characters nor whitespace (`replace(/[^\w\s]/g, '')`), split
on whitespace runs, drop empty tokens. -/
def ngramTokens (text : Str) : List Str :=
  let cleaned := (jsToLower text).filter fun c => isWordCh c || isJsWs c
  (splitRe wsRunLen cleaned).filter fun t => t.length > 0

/-- JS `Map.set(k, (get(k) || 0) + 1)` on an insertion-ordered map:
update in place when the key exists, else append with count 1. -/
def mapInc (m : List (Str × Nat)) (k : Str) : List (Str × Nat) :=
  if m.any fun p => p.1 = k then
    m.map fun p => if p.1 = k then (p.1, p.2 + 1) else p
  else m ++ [(k, 1)]

/-- The bigram loop of `generateNgrams` over one chunk's token list:
count each adjacent pair whose two tokens are both non-stop-words. -/
def bigramPass (m : List (Str × Nat)) : List Str → List (Str × Nat)
  | t1 :: t2 :: rest =>
    bigramPass
      (if !isStopWord t1 && !isStopWord t2 then mapInc m (t1 ++ ' ' :: t2)
       else m)
      (t2 :: rest)
  | _ => m

/-- The trigram loop of `generateNgrams` over one chunk's token list. -/
def trigramPass (m : List (Str × Nat)) : List Str → List (Str × Nat)
  | t1 :: t2 :: t3 :: rest =>
    trigramPass
      (if !isStopWord t1 && !isStopWord t2 && !isStopWord t3 then
        mapInc m (t1 ++ ' ' :: (t2 ++ ' ' :: t3))
       else m)
      (t2 :: t3 :: rest)
  | _ => m

/-- An n-gram result entry (`{ text, value, type }`). -/
structure NgramEntry where
  text : Str
  value : Nat
  type : Str
deriving DecidableEq, Repr

/-- Stable insertion of an entry into a list sorted by descending value:
the entry goes after every existing entry of greater or equal value. -/
def insertByValueDesc (e : NgramEntry) : List NgramEntry → List NgramEntry
  | [] => [e]
  | x :: xs =>
    if e.value ≤ x.value then x :: insertByValueDesc e xs else e :: x :: xs

/-- JS `Array.prototype.sort` with comparator `(a, b) => b.value - a.value`:
a stable sort by descending value (stable sorts are unique, so this
insertion sort computes the same list). -/
def sortByValueDesc (l : List NgramEntry) : List NgramEntry :=
  l.foldl (fun acc e => insertByValueDesc e acc) []

/-- The `format` helper of `generateNgrams`: entries in map insertion
order, tagged, sorted by descending count (stable), top 50. -/
def formatNgrams (m : List (Str × Nat)) (kind : Str) : List NgramEntry :=
  (sortByValueDesc (m.map fun p => { text := p.1, value := p.2, type := kind })).take 50

structure NgramResult where
  bigrams : List NgramEntry
  trigrams : List NgramEntry
deriving DecidableEq, Repr

/-- `generateNgrams` from src/utils/textProcessing.ts. -/
def generateNgrams (chunks : List Chunk) : NgramResult :=
  let bigramCounts :=
    chunks.foldl (fun m c => bigramPass m (ngramTokens c.text)) []
  let trigramCounts :=
    chunks.foldl (fun m c => trigramPass m (ngramTokens c.text)) []
  { bigrams := formatNgrams bigramCounts (str "bigram"),
    trigrams := formatNgrams trigramCounts (str "trigram") }

-- ---------------------------------------------------------------------------
-- src/utils/textProcessing.ts : KWIC concordance
-- ---------------------------------------------------------------------------

/-- JS `String.prototype.substring` (clamping both arguments and swapping
them when out of order). -/
def jsSubstring (s : Str) (a b : Nat) : Str :=
  let a := min a s.length
  let b := min b s.length
  (s.take (max a b)).drop (min a b)

/-- JS `String.prototype.indexOf(needle, from)`: the smallest index
`j ≥ from` at which `needle` occurs contiguously; an empty needle is found
at `min from length`. -/
def jsIndexOf (h n : Str) (start : Nat) : Option Nat :=
  if n.isEmpty then some (min start h.length)
  else
    (List.range (h.length + 1)).find? fun j =>
      decide (start ≤ j) && n.isPrefixOf (h.drop j)

/-- A KWIC result record.  The source also stores the owning chunk's
opaque id (`chunkId`); no claim refers to it so it is omitted. -/
structure KWICRecord where
  left : Str
  keyword : Str
  right : Str
  sourceName : Option Str
deriving DecidableEq, Repr

/-- Build one KWIC record for the occurrence starting at `j` in `text`. -/
def mkKWICRecord (text : Str) (j kwLen window : Nat)
    (srcName : Option Str) : KWICRecord :=
  let leftStart := j - window
  let left := jsSubstring text leftStart j
  let actualKeyword := jsSubstring text j (j + kwLen)
  let rightEnd := min text.length (j + kwLen + window)
  let right := jsSubstring text (j + kwLen) rightEnd
  { left := (if leftStart > 0 then str "..." else []) ++ left,
    keyword := actualKeyword,
    right := right ++ (if rightEnd < text.length then str "..." else []),
    sourceName := srcName }

/-- The `while` loop of `generateKWIC` over one chunk: find each
occurrence in the lower-cased text, emit a record, and resume the search
one character past the occurrence's start.  `fuel` bounds the loop;
callers pass the text length plus one, which suffices for a non-empty
keyword since the scan index strictly increases. -/
def kwicScan (text ntext nkw : Str) (kwLen window : Nat)
    (srcName : Option Str) : Nat → Nat → List KWICRecord
  | 0, _ => []
  | fuel + 1, start =>
    match jsIndexOf ntext nkw start with
    | none => []
    | some j =>
      mkKWICRecord text j kwLen window srcName ::
        kwicScan text ntext nkw kwLen window srcName fuel (j + 1)

/-- `generateKWIC` from src/utils/textProcessing.ts (the push-into-results
loop over chunks becomes a fold with append). -/
def generateKWIC (chunks : List Chunk) (keyword : Str) (window : Nat) :
    List KWICRecord :=
  let nkw := jsToLower keyword
  chunks.foldl
    (fun results c =>
      results ++
        kwicScan c.text (jsToLower c.text) nkw keyword.length window
          c.sourceName (c.text.length + 1) 0)
    []

-- ---------------------------------------------------------------------------
-- Regex matchers used by the splitters
-- ---------------------------------------------------------------------------

/-- Largest index of `l` holding a line feed. -/
def lastLF (l : Str) : Option Nat :=
  match l.reverse.findIdx? fun c => c = '\n' with
  | some k => some (l.length - 1 - k)
  | none => none

/-- Matcher for `/\n\s*\n/`: a line feed, then `\s*` greedily up to the
last line feed inside the following whitespace run, then that line feed.
Match length, or `none` when no second line feed is reachable. -/
def blankSplitLen : Str → Option Nat
  | '\n' :: rest =>
    let w := (rest.takeWhile isJsWs).length
    match lastLF (rest.take w) with
    | some p => some (p + 2)
    | none => none
  | _ => none

def isSentenceTerm (c : Char) : Bool := c = '.' || c = '!' || c = '?'

/-- Match attempt of `/[^.!?]+[.!?]+["']?|[^.!?]+$/` at the head of `s`.
The first alternative needs at least one non-terminator then at least one
terminator then an optional quote; since the non-terminator run taken is
maximal, the second alternative (anchored at the end of input) can only
apply when the run reaches the end of the string. -/
def sentenceMatchAt (s : Str) : Option Nat :=
  let a := (s.takeWhile fun c => !isSentenceTerm c).length
  if a = 0 then none
  else
    let r := s.drop a
    let b := (r.takeWhile isSentenceTerm).length
    if b = 0 then some a
    else
      let q : Nat :=
        match r.drop b with
        | c :: _ => if c = '"' ∨ c = '\'' then 1 else 0
        | [] => 0
      some (a + b + q)

/-- JS `String.prototype.match` with a global regex: collect successive
leftmost matches, advancing one character past positions where no match
starts.  `fuel` is the string length plus one. -/
def collectMatches (m : Str → Option Nat) : Nat → Str → List Str
  | 0, _ => []
  | _ + 1, [] => []
  | fuel + 1, c :: rest =>
    match m (c :: rest) with
    | some (n + 1) =>
      (c :: rest).take (n + 1) :: collectMatches m fuel ((c :: rest).drop (n + 1))
    | _ => collectMatches m fuel rest

def isUpperDigit (c : Char) : Bool := ('A' ≤ c ∧ c ≤ 'Z') || isDigitCh c

/-- Tail of the speaker lookahead `[\w\s]*:`: walk word/whitespace
characters until a colon (success) or any other character (failure). -/
def speakerTail : Str → Bool
  | [] => false
  | c :: rest =>
    if c = ':' then true
    else if isWordCh c || isJsWs c then speakerTail rest
    else false

/-- The lookahead `(?=[A-Z0-9][\w\s]*:)`. -/
def speakerLook : Str → Bool
  | [] => false
  | c :: rest => isUpperDigit c && speakerTail rest

/-- Split on `/\n(?=[A-Z0-9][\w\s]*:)/g`: the line feed is consumed as a
separator exactly when the speaker lookahead holds after it. -/
def splitSpeaker (s : Str) : List Str :=
  go [] s
where
  go (acc : Str) : Str → List Str
    | [] => [acc.reverse]
    | c :: rest =>
      if (c == '\n') && speakerLook rest then acc.reverse :: go [] rest
      else go (c :: acc) rest

/-- `speakerRegex.test(text)`: is there a line feed followed by the
speaker lookahead anywhere in the text? -/
def speakerTest (s : Str) : Bool :=
  go s
where
  go : Str → Bool
    | [] => false
    | c :: rest => ((c == '\n') && speakerLook rest) || go rest

/-- Lookahead `(?=^\s*#+\s)` (multiline) of the SECTION split: from a line
start, a whitespace run (which may span line feeds), at least one hash
(the greedy `#+` must be followed by a whitespace character), then one
whitespace character. -/
def secLookahead (s : Str) : Bool :=
  let r := s.dropWhile isJsWs
  let h := (r.takeWhile fun c => c = '#').length
  1 ≤ h && (match r.drop h with | c :: _ => isJsWs c | [] => false)

/-- Lookahead `(?=^#+\s)` (multiline) of the HEADING split in
`splitSingleText`: like `secLookahead` but without the whitespace prefix. -/
def headingLookahead (s : Str) : Bool :=
  let h := (s.takeWhile fun c => c = '#').length
  1 ≤ h && (match s.drop h with | c :: _ => isJsWs c | [] => false)

/-- Zero-width lookahead split `text.split(/(?=...)/gm)`: cut immediately
before every interior line-start position where `p` holds; a zero-width
match at position 0 produces no leading empty piece (JS split skips it). -/
def splitBeforeLineStart (p : Str → Bool) (s : Str) : List Str :=
  go true true [] s
where
  go (first atLS : Bool) (acc : Str) : Str → List Str
    | [] => [acc.reverse]
    | c :: rest =>
      if atLS ∧ first = false ∧ p (c :: rest) then
        acc.reverse :: go false (c = '\n') [c] rest
      else
        go false (c = '\n') (c :: acc) rest

/-- Match length of the anchored hierarchical separator
`(^\s*#{L}\s+.+$)` (multiline) at a line-start position: a whitespace run
(possibly spanning line feeds), exactly `L` hashes (a longer hash run
cannot match because `#{L}` must be followed by `\s`), then `\s+.+$`.
The `1 ≤ L` guard reflects the spec's §6 contract that callers clamp the
split level to 1–6. -/
def sectionHeaderLen (L : Nat) (s : Str) : Option Nat :=
  let w := (s.takeWhile isJsWs).length
  let r1 := s.drop w
  let h := (r1.takeWhile fun c => c = '#').length
  if h = L ∧ 1 ≤ L then
    (wsPlusDotPlusLen (r1.drop L)).map fun t => w + L + t
  else none

/-- `content.split(regex)` for a regex wrapped in a capture group: the
matched separators stay in the output between the surrounding pieces.
Matches are only attempted at line-start positions (the pattern is
`^`-anchored); scanning resumes right after each match, whose last
character is never a line feed, so the resumption point is not a line
start.  `fuel` is the string length plus one. -/
def splitKeepGo (m : Str → Option Nat) : Nat → Str → Bool → Str → List Str
  | 0, acc, _, s => [acc.reverse ++ s]
  | _ + 1, acc, _, [] => [acc.reverse]
  | fuel + 1, acc, atLS, c :: rest =>
    match (if atLS then m (c :: rest) else none) with
    | some (n + 1) =>
      acc.reverse :: (c :: rest).take (n + 1) ::
        splitKeepGo m fuel [] false ((c :: rest).drop (n + 1))
    | _ => splitKeepGo m fuel (c :: acc) (c = '\n') rest

def splitKeep (m : Str → Option Nat) (s : Str) : List Str :=
  splitKeepGo m (s.length + 1) [] true s

/-- `new RegExp('^\\s*#{L}\\s').test(sec)` (anchored at the string start,
no multiline flag): a whitespace run, exactly `L` hashes, then one
whitespace character. -/
def headerTestL (L : Nat) (s : Str) : Bool :=
  let r := s.dropWhile isJsWs
  ((r.takeWhile fun c => c = '#').length = L) &&
    (match r.drop L with | c :: _ => isJsWs c | [] => false)

/-- `section.trim().replace(/^[#\s]+/, '').trim()` — the heading title. -/
def headerTitle (s : Str) : Str :=
  jsTrim ((jsTrim s).dropWhile fun c => c = '#' || isJsWs c)

-- ---------------------------------------------------------------------------
-- src/services/step2_segment.ts : splitRawText and performSegmentation
-- ---------------------------------------------------------------------------

/-- `splitRawText` from step2_segment: raw flat splitting of one text
block by the basic strategy.  Unhandled strategies return the text
untouched as a single piece. -/
def splitRawText (text : Str) (strategy : Granularity) : List Str :=
  match strategy with
  | .PARAGRAPH =>
    (splitRe blankSplitLen text).filter fun t => !(jsTrim t).isEmpty
  | .SENTENCE =>
    let ms := collectMatches sentenceMatchAt (text.length + 1) text
    if ms.isEmpty then [text] else ms
  | .LINE =>
    (splitChar '\n' text).filter fun t => !(jsTrim t).isEmpty
  | .SECTION =>
    (splitBeforeLineStart secLookahead text).filter fun t => !(jsTrim t).isEmpty
  | .TURN =>
    (splitSpeaker text).filter fun t => !(jsTrim t).isEmpty
  | _ => [text]

inductive CsvStrategy where
  | COMBINE
  | DISTINCT
deriving DecidableEq, Repr

/-- `CsvSegmentationConfig` from src/types.ts.  The optional
`sentimentContextColumns` is read back with `|| []`, so `undefined` and
`[]` are indistinguishable and the field is a plain list here.  Note that
`performSegmentation` never reads `strategy`: the effective CSV strategy
is derived from the `isHierarchical` flag. -/
structure CsvSegmentationConfig where
  targetColumns : List Str
  contextColumns : List Str
  sentimentContextColumns : List Str
  strategy : CsvStrategy
deriving DecidableEq, Repr

/-- JS `Array.prototype.indexOf` on a string array (first occurrence). -/
def listIndexOf (l : List Str) (x : Str) : Option Nat :=
  l.findIdx? fun y => y = x

/-- `row[idx] ? row[idx].replace(/^"|"$/g, '').trim() : ''` for
`idx = headers.indexOf(c)`: a missing column, an out-of-range index or an
empty cell gives the empty string. -/
def csvCellVal (headers row : List Str) (c : Str) : Str :=
  match listIndexOf headers c with
  | none => []
  | some idx =>
    let raw := row.getD idx []
    if raw.isEmpty then [] else jsTrim (stripEdgeQuotes raw)

/-- The `[Meta: ...]` context string of a row: non-empty context-column
values (sentiment-flagged ones prefixed), joined with a vertical-bar
separator. -/
def csvContextStr (headers contextCols sentimentCols row : List Str) : Str :=
  joinSep (str " | ")
    ((contextCols.map fun c =>
      let val := csvCellVal headers row c
      if sentimentCols.contains c then
        if !val.isEmpty then str "[Sentiment Context] " ++ c ++ str ": " ++ val
        else []
      else
        if !val.isEmpty then c ++ str ": " ++ val else []).filter
      fun s => !s.isEmpty)

/-- The `[Meta: ...]` prefix line of a row (empty when there is no
context). -/
def csvMetaPre (headers contextCols sentimentCols row : List Str) : Str :=
  let contextStr := csvContextStr headers contextCols sentimentCols row
  if !contextStr.isEmpty then str "[Meta: " ++ contextStr ++ str "]" ++ ['\n']
  else []

/-- The ROW_COMBINED chunk of one CSV row: zero or one chunk, skipped
entirely when the row's target text is blank after trimming. -/
def csvCombineRowChunks (strategy : Granularity) (doc : SourceDocument)
    (headers targetCols contextCols sentimentCols row : List Str) :
    List Chunk :=
  let mainStr := joinSep ['\n']
    ((targetCols.map fun c =>
      let val := csvCellVal headers row c
      if !val.isEmpty then
        if targetCols.length > 1 then c ++ str ": " ++ val else val
      else []).filter fun s => !s.isEmpty)
  if !(jsTrim mainStr).isEmpty then
    [{ text := csvMetaPre headers contextCols sentimentCols row ++ mainStr,
       type := strategy, sourceId := some doc.id,
       sourceName := some doc.name }]
  else []

/-- The ROW_DISTINCT_COLUMNS chunk of one CSV row and one target column:
zero or one chunk, skipped when the column is missing from the headers or
its value is blank. -/
def csvDistinctCellChunks (strategy : Granularity) (doc : SourceDocument)
    (headers contextCols sentimentCols row : List Str) (colName : Str) :
    List Chunk :=
  match listIndexOf headers colName with
  | none => []
  | some idx =>
    let raw := row.getD idx []
    let val : Str := if raw.isEmpty then [] else jsTrim (stripEdgeQuotes raw)
    if !val.isEmpty then
      [{ text := csvMetaPre headers contextCols sentimentCols row ++
           str "[Column: " ++ colName ++ str "]" ++ ['\n'] ++ val,
         type := strategy, sourceId := some doc.id,
         sourceName := some (doc.name ++ str " > " ++ colName) }]
    else []

/-- Per-document chunk production of `performSegmentation` — the body of
the `docs.forEach` loop, with the `push` calls made explicit appends (a
skipped row appends the empty list). -/
def segmentDoc (strategy : Granularity)
    (csvConfig : Option CsvSegmentationConfig) (isHierarchical : Bool)
    (splitLevel : Nat) (doc : SourceDocument) : List Chunk :=
  if strategy = .FILE then
    [{ text := doc.content, type := strategy,
       sourceId := some doc.id, sourceName := some doc.name }]
  else if doc.type = .csv then
    let structure_ := parseCSVStructure doc.content
    let headers := structure_.headers
    let targetCols := (csvConfig.map (·.targetColumns)).getD headers
    let contextCols := (csvConfig.map (·.contextColumns)).getD []
    let sentimentCols := (csvConfig.map (·.sentimentContextColumns)).getD []
    structure_.rows.foldl
      (fun acc row =>
        if isHierarchical = false then
          -- effectiveStrategy = ROW_COMBINED
          acc ++ csvCombineRowChunks strategy doc headers targetCols
            contextCols sentimentCols row
        else
          -- effectiveStrategy = ROW_DISTINCT_COLUMNS
          targetCols.foldl
            (fun acc2 colName =>
              acc2 ++ csvDistinctCellChunks strategy doc headers contextCols
                sentimentCols row colName)
            acc)
      []
  else if isHierarchical then
    let effectiveLevel :=
      if strategy = .SUBSECTION then min 6 (splitLevel + 1) else splitLevel
    let sections := splitKeep (sectionHeaderLen effectiveLevel) doc.content
    (sections.foldl
      (fun (st : Str × List Chunk) sec =>
        if (jsTrim sec).isEmpty then st
        else if headerTestL effectiveLevel sec then (headerTitle sec, st.2)
        else if strategy = .SUBSECTION then
          (st.1, st.2 ++
            [{ text := jsTrim sec, type := strategy,
               sourceId := some doc.id,
               sourceName := some (doc.name ++ str " > " ++ st.1) }])
        else
          (st.1, st.2 ++
            (splitRawText sec strategy).map fun seg =>
              { text := seg, type := strategy, sourceId := some doc.id,
                sourceName := some (doc.name ++ str " > " ++ st.1) }))
      (str "Intro / Untitled", [])).2
  else
    (splitRawText doc.content strategy).map fun t =>
      { text := jsTrim t, type := strategy, sourceId := some doc.id,
        sourceName := some doc.name }

/-- `performSegmentation` from step2_segment: iterate the documents in
order, appending each document's chunks (`chunks = [...chunks,
...docChunks]`). -/
def performSegmentation (docs : List SourceDocument) (strategy : Granularity)
    (csvConfig : Option CsvSegmentationConfig) (isHierarchical : Bool)
    (splitLevel : Nat) : List Chunk :=
  docs.foldl
    (fun chunks doc =>
      chunks ++ segmentDoc strategy csvConfig isHierarchical splitLevel doc)
    []

/-- The chunks one CSV row contributes, in source order: under the
combined strategy (non-hierarchical) the row's zero-or-one merged chunk;
under the distinct strategy one block per target column, in configured
column order. -/
def csvRowChunks (strategy : Granularity) (doc : SourceDocument)
    (headers targetCols contextCols sentimentCols : List Str) (hier : Bool)
    (row : List Str) : List Chunk :=
  if hier = false then
    csvCombineRowChunks strategy doc headers targetCols contextCols
      sentimentCols row
  else
    (targetCols.map fun colName =>
      csvDistinctCellChunks strategy doc headers contextCols sentimentCols
        row colName).flatten

/-- The CSV branch of `segmentDoc`, restated as the concatenation of the
per-row chunk blocks in source row order (each row's block in
target-column order). -/
def segmentDocCsvByRows (strategy : Granularity)
    (cfg : Option CsvSegmentationConfig) (hier : Bool)
    (doc : SourceDocument) : List Chunk :=
  ((parseCSVStructure doc.content).rows.map
    (csvRowChunks strategy doc (parseCSVStructure doc.content).headers
      ((cfg.map (·.targetColumns)).getD (parseCSVStructure doc.content).headers)
      ((cfg.map (·.contextColumns)).getD [])
      ((cfg.map (·.sentimentContextColumns)).getD [])
      hier)).flatten

/-- The chunks one non-blank, non-heading split piece contributes under
the current heading `hdr`: the whole trimmed body for SUBSECTION,
otherwise the inner split pieces in split order. -/
def hierContentChunks (strategy : Granularity) (doc : SourceDocument)
    (hdr sec : Str) : List Chunk :=
  if strategy = .SUBSECTION then
    [{ text := jsTrim sec, type := strategy, sourceId := some doc.id,
       sourceName := some (doc.name ++ str " > " ++ hdr) }]
  else
    (splitRawText sec strategy).map fun seg =>
      { text := seg, type := strategy, sourceId := some doc.id,
        sourceName := some (doc.name ++ str " > " ++ hdr) }

/-- The per-piece chunk blocks of the hierarchical fold, in piece order,
threading the current heading: a blank piece contributes an empty block,
a heading separator contributes an empty block and updates the heading,
and a content piece contributes its `hierContentChunks`. -/
def hierSectionBlocks (strategy : Granularity) (doc : SourceDocument)
    (lvl : Nat) : Str → List Str → List (List Chunk)
  | _, [] => []
  | hdr, sec :: rest =>
    if (jsTrim sec).isEmpty then
      [] :: hierSectionBlocks strategy doc lvl hdr rest
    else if headerTestL lvl sec then
      [] :: hierSectionBlocks strategy doc lvl (headerTitle sec) rest
    else
      hierContentChunks strategy doc hdr sec ::
        hierSectionBlocks strategy doc lvl hdr rest

/-- The hierarchical branch of `segmentDoc`, restated as the
concatenation of the per-section blocks in section order. -/
def segmentDocHierBySections (strategy : Granularity) (lvl : Nat)
    (doc : SourceDocument) : List Chunk :=
  (hierSectionBlocks strategy doc
    (if strategy = .SUBSECTION then min 6 (lvl + 1) else lvl)
    (str "Intro / Untitled")
    (splitKeep
      (sectionHeaderLen
        (if strategy = .SUBSECTION then min 6 (lvl + 1) else lvl))
      doc.content)).flatten

-- ---------------------------------------------------------------------------
-- src/utils/textProcessing.ts : splitSingleText
-- ---------------------------------------------------------------------------

def CSV_ROW_DELIMITER : Str := str "<<<ROW_BREAK>>>"

/-- Replace every occurrence of the (non-empty) literal `pat` with `repl`,
scanning left to right.  `fuel` is the string length plus one. -/
def replaceAllSub (pat repl : Str) : Nat → Str → Str
  | 0, s => s
  | _ + 1, [] => []
  | fuel + 1, c :: rest =>
    if pat.isPrefixOf (c :: rest) ∧ pat ≠ [] then
      repl ++ replaceAllSub pat repl fuel ((c :: rest).drop pat.length)
    else c :: replaceAllSub pat repl fuel rest

def jsReplaceAll (pat repl s : Str) : Str :=
  replaceAllSub pat repl (s.length + 1) s

/-- Split on a (non-empty) literal substring, left to right. -/
def splitOnSubGo (pat : Str) : Nat → Str → Str → List Str
  | 0, acc, s => [acc.reverse ++ s]
  | _ + 1, acc, [] => [acc.reverse]
  | fuel + 1, acc, c :: rest =>
    if pat.isPrefixOf (c :: rest) ∧ pat ≠ [] then
      acc.reverse :: splitOnSubGo pat fuel [] ((c :: rest).drop pat.length)
    else splitOnSubGo pat fuel (c :: acc) rest

def jsSplitOnSub (pat s : Str) : List Str :=
  splitOnSubGo pat (s.length + 1) [] s

/-- Count of `/\n\n/g` matches (non-overlapping, left to right). -/
def countDoubleLF : Str → Nat
  | '\n' :: '\n' :: rest => 1 + countDoubleLF rest
  | _ :: rest => countDoubleLF rest
  | [] => 0

/-- Count of `/\n/g` matches. -/
def countLF (s : Str) : Nat := s.countP fun c => c = '\n'

/-- Matcher for a line-feed run of length at least `minRun` (the split
patterns `/\n\n+/` and `/\n+/`). -/
def lfRunLen (minRun : Nat) (s : Str) : Option Nat :=
  let r := (s.takeWhile fun c => c = '\n').length
  if minRun ≤ r ∧ 1 ≤ r then some r else none

/-- Matcher for `/[,;]\s+/`: a comma or semicolon followed by a
whitespace run of length at least one (greedy). -/
def phraseSplitLen : Str → Option Nat
  | c :: rest =>
    if c = ',' ∨ c = ';' then
      let w := (rest.takeWhile isJsWs).length
      if 1 ≤ w then some (1 + w) else none
    else none
  | [] => none

/-- The PARAGRAPH branch of `splitSingleText`, also the target of the
turn-splitting fallback: clear the row-delimiter marker, split on blank
lines, drop blank pieces, trim. -/
def splitSingleParagraph (text : Str) : List Chunk :=
  let cleanText := jsReplaceAll CSV_ROW_DELIMITER (str "\n\n") text
  ((splitRe blankSplitLen cleanText).filter fun p => !(jsTrim p).isEmpty).map
    fun p => { text := jsTrim p, type := Granularity.PARAGRAPH }

/-- `splitSingleText` from src/utils/textProcessing.ts.  The TURN branch
falls back to paragraph splitting only when the speaker regex does not
match AND the text contains no colon at all; granularities not handled by
the if-chain yield the empty chunk list. -/
def splitSingleText (text : Str) (granularity : Granularity) : List Chunk :=
  if granularity = .WHOLE then
    [{ text := jsReplaceAll CSV_ROW_DELIMITER (str "\n\n") text,
       type := .WHOLE }]
  else if granularity = .RESPONSE then
    if jsIncludes text CSV_ROW_DELIMITER then
      (((jsSplitOnSub CSV_ROW_DELIMITER text).map jsTrim).filter
        fun t => !t.isEmpty).map
        fun t => { text := t, type := Granularity.RESPONSE }
    else
      let dd := countDoubleLF text
      let sn := countLF text
      -- `dd > 1 && dd > sn * 0.1`: exact by cross-multiplication for the
      -- integer counts involved
      let minRun := if dd > 1 ∧ 10 * dd > sn then 2 else 1
      (((splitRe (lfRunLen minRun) text).map jsTrim).filter
        fun t => !t.isEmpty).map
        fun t => { text := t, type := Granularity.RESPONSE }
  else if granularity = .TURN then
    if speakerTest text = false ∧ jsIncludes text (str ":") = false then
      splitSingleParagraph text
    else
      ((splitSpeaker text).filter fun t => !(jsTrim t).isEmpty).map
        fun t => { text := jsTrim t, type := Granularity.TURN }
  else if granularity = .HEADING then
    ((splitBeforeLineStart headingLookahead text).filter
      fun s => !(jsTrim s).isEmpty).map
      fun s => { text := jsTrim s, type := Granularity.HEADING }
  else if granularity = .PARAGRAPH then
    splitSingleParagraph text
  else if granularity = .SENTENCE then
    let cleanText := jsReplaceAll CSV_ROW_DELIMITER [' '] text
    let ms := collectMatches sentenceMatchAt (cleanText.length + 1) cleanText
    let raw := if ms.isEmpty then [cleanText] else ms
    (raw.filter fun s => !(jsTrim s).isEmpty).map
      fun s => { text := jsTrim s, type := Granularity.SENTENCE }
  else if granularity = .PHRASE then
    let cleanText := jsReplaceAll CSV_ROW_DELIMITER [' '] text
    ((splitRe phraseSplitLen cleanText).filter
      fun p => !(jsTrim p).isEmpty).map
      fun p => { text := jsTrim p, type := Granularity.PHRASE }
  else []

-- ---------------------------------------------------------------------------
-- Theorems for claims C5 and C6
-- ---------------------------------------------------------------------------

/-- C5: for every content string with fewer than 2 non-blank lines —
including a single header line with no data rows — `parseCSVStructure`
returns the degenerate empty table with `headers = []`, `rows = []` and
`totalRows = 0`.  No error is signalled: the function is total and this is
its ordinary return value. -/
theorem parseCSVStructure_degenerate_below_two_lines (content : Str)
    (h : ((splitCRLF content).filter fun l => !(jsTrim l).isEmpty).length < 2) :
    parseCSVStructure content = { headers := [], rows := [], totalRows := 0 } := by
  unfold parseCSVStructure
  rcases hx : (splitCRLF content).filter fun l => !(jsTrim l).isEmpty with
    _ | ⟨l0, _ | ⟨l1, rest⟩⟩
  · simp [hx]
  · simp [hx]
  · rw [hx] at h
    simp at h
    omega

/-- Witness for C5 at the concrete input `"a,b"`: one header line, no data
rows. -/
theorem parseCSVStructure_degenerate_below_two_lines_witness :
    ((splitCRLF (str "a,b")).filter fun l => !(jsTrim l).isEmpty).length < 2 ∧
    parseCSVStructure (str "a,b") = { headers := [], rows := [], totalRows := 0 } :=
  ⟨by decide, parseCSVStructure_degenerate_below_two_lines (str "a,b") (by decide)⟩

/-- C6: for every parsed table with at least one header column, the
configuration returned by `guessCSVConfig` has a non-empty analyze-column
set; and when the keyword/ratio heuristic pass qualifies no column as a
target, the last column is forced into the target set. -/
theorem guessCSVConfig_analyze_nonempty (s : CSVStructure)
    (h : s.headers ≠ []) :
    (guessCSVConfig s).analyzeCols ≠ [] ∧
    ((guessPass s.headers s.rows).1 = [] →
      (guessCSVConfig s).analyzeCols = [s.headers.length - 1]) := by
  have hlen : s.headers.length > 0 := List.length_pos.mpr h
  unfold guessCSVConfig
  cases hp : (guessPass s.headers s.rows).1 with
  | nil => simp [hp, hlen]
  | cons a t => simp [hp]

/-- Witness for C6 at a concrete one-column table with a numeric value:
the heuristic pass classifies the column as context, so the fallback fires. -/
theorem guessCSVConfig_analyze_nonempty_witness :
    (parseCSVStructure (str "x\n1\n2")).headers ≠ [] ∧
    (guessCSVConfig (parseCSVStructure (str "x\n1\n2"))).analyzeCols ≠ [] :=
  ⟨by decide,
   (guessCSVConfig_analyze_nonempty (parseCSVStructure (str "x\n1\n2"))
     (by decide)).1⟩

-- ---------------------------------------------------------------------------
-- Theorems for claim C7
-- ---------------------------------------------------------------------------

/-- C7 counterexample: a file named `x.csv` whose content is the single
line `a,b` is classified `csv` by extension, yet `parseCSVStructure` on
one non-blank line yields no headers, so the ingested document has
`csvHeaders` absent while its kind is `csv` — refuting "present iff
kind = tabular". -/
theorem ingestFile_csv_without_headers :
    (ingestFile (str "d") (str "x.csv") [] (str "a,b")).type = DocType.csv ∧
    (ingestFile (str "d") (str "x.csv") [] (str "a,b")).csvHeaders = none := by
  decide

/-- C7 amended: `csvHeaders` is present only on `csv` documents, and for
`ingestFile` it is present exactly when the kind is `csv` and the content
parses to a non-empty header row (a `.csv` file with fewer than two
non-blank lines is `csv` with `csvHeaders` absent); for `ingestManualText`
the original claim holds: `csvHeaders` is present iff the kind is `csv`. -/
theorem ingest_csvHeaders_characterization :
    (∀ idv name ftype text,
      (ingestFile idv name ftype text).csvHeaders =
        (if (ingestFile idv name ftype text).type = DocType.csv ∧
            (parseCSVStructure text).headers ≠ [] then
          some (parseCSVStructure text).headers else none)) ∧
    (∀ idv text,
      (ingestManualText idv text).csvHeaders ≠ none ↔
        (ingestManualText idv text).type = DocType.csv) := by
  constructor
  · intro idv name ftype text
    show (ingestFile idv name ftype text).csvHeaders = _
    unfold ingestFile
    by_cases hty : ingestFileType name ftype text = DocType.csv
    · simp only [hty, if_pos rfl, if_true]
      rcases hh : (parseCSVStructure text).headers with _ | ⟨a, t⟩ <;> simp [hh]
    · simp [hty]
  · intro idv text
    unfold ingestManualText
    dsimp only
    split <;> simp_all

-- ---------------------------------------------------------------------------
-- Helper lemmas about the n-gram counting map and sort
-- ---------------------------------------------------------------------------

theorem mapInc_key_mem {m : List (Str × Nat)} {k : Str} {q : Str × Nat}
    (hq : q ∈ mapInc m k) : q.1 = k ∨ ∃ p ∈ m, q.1 = p.1 := by
  unfold mapInc at hq
  split at hq
  · rcases List.mem_map.mp hq with ⟨p, hp, hfp⟩
    right
    refine ⟨p, hp, ?_⟩
    by_cases h : p.1 = k
    · rw [if_pos h] at hfp
      rw [← hfp]
    · rw [if_neg h] at hfp
      rw [← hfp]
  · rcases List.mem_append.mp hq with h | h
    · exact Or.inr ⟨q, h, rfl⟩
    · simp at h
      simp [h]

theorem bigramPass_key_shape (P : Str → Prop)
    (hP : ∀ t1 t2, isStopWord t1 = false → isStopWord t2 = false →
      P (t1 ++ ' ' :: t2)) :
    ∀ ts m, (∀ q ∈ m, P q.1) → ∀ q ∈ bigramPass m ts, P q.1 := by
  intro ts
  induction ts with
  | nil =>
    intro m hm q hq
    simp only [bigramPass] at hq
    exact hm q hq
  | cons t1 rest ih =>
    intro m hm q hq
    cases rest with
    | nil =>
      simp only [bigramPass] at hq
      exact hm q hq
    | cons t2 rest2 =>
      simp only [bigramPass] at hq
      refine ih _ ?_ q hq
      intro q' hq'
      split at hq'
      · rcases mapInc_key_mem hq' with h | ⟨p, hp, hqp⟩
        · rename_i hcond
          simp only [Bool.and_eq_true, Bool.not_eq_true'] at hcond
          rw [h]
          exact hP t1 t2 hcond.1 hcond.2
        · rw [hqp]
          exact hm p hp
      · exact hm q' hq'

theorem trigramPass_key_shape (P : Str → Prop)
    (hP : ∀ t1 t2 t3, isStopWord t1 = false → isStopWord t2 = false →
      isStopWord t3 = false → P (t1 ++ ' ' :: (t2 ++ ' ' :: t3))) :
    ∀ ts m, (∀ q ∈ m, P q.1) → ∀ q ∈ trigramPass m ts, P q.1 := by
  intro ts
  induction ts with
  | nil =>
    intro m hm q hq
    simp only [trigramPass] at hq
    exact hm q hq
  | cons t1 rest ih =>
    intro m hm q hq
    cases rest with
    | nil =>
      simp only [trigramPass] at hq
      exact hm q hq
    | cons t2 rest2 =>
      cases rest2 with
      | nil =>
        simp only [trigramPass] at hq
        exact hm q hq
      | cons t3 rest3 =>
        simp only [trigramPass] at hq
        refine ih _ ?_ q hq
        intro q' hq'
        split at hq'
        · rcases mapInc_key_mem hq' with h | ⟨p, hp, hqp⟩
          · rename_i hcond
            simp only [Bool.and_eq_true, Bool.not_eq_true'] at hcond
            rw [h]
            exact hP t1 t2 t3 hcond.1.1 hcond.1.2 hcond.2
          · rw [hqp]
            exact hm p hp
        · exact hm q' hq'

theorem chunksFold_key_shape (P : Str → Prop)
    (pass : List (Str × Nat) → List Str → List (Str × Nat))
    (hpass : ∀ ts m, (∀ q ∈ m, P q.1) → ∀ q ∈ pass m ts, P q.1) :
    ∀ (chunks : List Chunk) m, (∀ q ∈ m, P q.1) →
      ∀ q ∈ chunks.foldl (fun m c => pass m (ngramTokens c.text)) m, P q.1 := by
  intro chunks
  induction chunks with
  | nil => intro m hm q hq; exact hm q hq
  | cons c rest ih =>
    intro m hm q hq
    exact ih _ (hpass (ngramTokens c.text) m hm) q hq

theorem mem_insertByValueDesc {e x : NgramEntry} {l : List NgramEntry}
    (h : x ∈ insertByValueDesc e l) : x = e ∨ x ∈ l := by
  induction l with
  | nil => simpa [insertByValueDesc] using h
  | cons y ys ih =>
    simp only [insertByValueDesc] at h
    split at h
    · rcases List.mem_cons.mp h with h | h
      · exact Or.inr (List.mem_cons.mpr (Or.inl h))
      · rcases ih h with h | h
        · exact Or.inl h
        · exact Or.inr (List.mem_cons.mpr (Or.inr h))
    · rcases List.mem_cons.mp h with h | h
      · exact Or.inl h
      · exact Or.inr h

theorem mem_sortByValueDesc {x : NgramEntry} {l : List NgramEntry}
    (h : x ∈ sortByValueDesc l) : x ∈ l := by
  have key : ∀ (l : List NgramEntry) (acc : List NgramEntry),
      x ∈ l.foldl (fun acc e => insertByValueDesc e acc) acc →
      x ∈ acc ∨ x ∈ l := by
    intro l
    induction l with
    | nil => intro acc h; exact Or.inl h
    | cons e es ih =>
      intro acc h
      rcases ih _ h with h | h
      · rcases mem_insertByValueDesc h with h | h
        · simp [h]
        · exact Or.inl h
      · simp [h]
  rcases key l [] h with h | h
  · simp at h
  · exact h

-- ---------------------------------------------------------------------------
-- Theorem for claim C9
-- ---------------------------------------------------------------------------

/-- The concrete chunk of the spec's n-gram example. -/
def ngramExampleChunk : Chunk :=
  { text := str "the cat sat. the cat ran.", type := .PARAGRAPH }

/-- C9: every bigram returned by `generateNgrams` is a space-join of two
non-stop-word tokens and every trigram a space-join of three, so no
returned n-gram contains a stop word in any position; and on the chunk
`"the cat sat. the cat ran."` (the stop-word set contains `"the"`) the
returned bigrams are exactly `"cat sat"` and `"cat ran"`, each with
count 1 — in particular none contains `"the"`. -/
theorem generateNgrams_no_stop_words :
    (∀ (chunks : List Chunk) (e : NgramEntry),
      e ∈ (generateNgrams chunks).bigrams →
      ∃ t1 t2, e.text = t1 ++ ' ' :: t2 ∧
        isStopWord t1 = false ∧ isStopWord t2 = false) ∧
    (∀ (chunks : List Chunk) (e : NgramEntry),
      e ∈ (generateNgrams chunks).trigrams →
      ∃ t1 t2 t3, e.text = t1 ++ ' ' :: (t2 ++ ' ' :: t3) ∧
        isStopWord t1 = false ∧ isStopWord t2 = false ∧
        isStopWord t3 = false) ∧
    (generateNgrams [ngramExampleChunk]).bigrams =
      [{ text := str "cat sat", value := 1, type := str "bigram" },
       { text := str "cat ran", value := 1, type := str "bigram" }] := by
  refine ⟨?_, ?_, by decide⟩
  · intro chunks e he
    have he2 := List.mem_of_mem_take he
    rcases List.mem_map.mp (mem_sortByValueDesc he2) with ⟨p, hp, hpe⟩
    have hshape := chunksFold_key_shape
      (fun k => ∃ t1 t2, k = t1 ++ ' ' :: t2 ∧
        isStopWord t1 = false ∧ isStopWord t2 = false)
      bigramPass
      (bigramPass_key_shape
        (fun k => ∃ t1 t2, k = t1 ++ ' ' :: t2 ∧
          isStopWord t1 = false ∧ isStopWord t2 = false)
        fun t1 t2 h1 h2 => ⟨t1, t2, rfl, h1, h2⟩)
      chunks [] (by simp) p hp
    rcases hshape with ⟨t1, t2, hk, h1, h2⟩
    exact ⟨t1, t2, by rw [← hpe]; exact hk, h1, h2⟩
  · intro chunks e he
    have he2 := List.mem_of_mem_take he
    rcases List.mem_map.mp (mem_sortByValueDesc he2) with ⟨p, hp, hpe⟩
    have hshape := chunksFold_key_shape
      (fun k => ∃ t1 t2 t3, k = t1 ++ ' ' :: (t2 ++ ' ' :: t3) ∧
        isStopWord t1 = false ∧ isStopWord t2 = false ∧ isStopWord t3 = false)
      trigramPass
      (trigramPass_key_shape
        (fun k => ∃ t1 t2 t3, k = t1 ++ ' ' :: (t2 ++ ' ' :: t3) ∧
          isStopWord t1 = false ∧ isStopWord t2 = false ∧
          isStopWord t3 = false)
        fun t1 t2 t3 h1 h2 h3 => ⟨t1, t2, t3, rfl, h1, h2, h3⟩)
      chunks [] (by simp) p hp
    rcases hshape with ⟨t1, t2, t3, hk, h1, h2, h3⟩
    exact ⟨t1, t2, t3, by rw [← hpe]; exact hk, h1, h2, h3⟩

/-- Witness for C9: the bigram `"cat sat"` really is among the results for
the example chunk, and the theorem applies to it. -/
theorem generateNgrams_no_stop_words_witness :
    ({ text := str "cat sat", value := 1, type := str "bigram" } : NgramEntry) ∈
      (generateNgrams [ngramExampleChunk]).bigrams ∧
    ∃ t1 t2,
      ({ text := str "cat sat", value := 1, type := str "bigram" } : NgramEntry).text =
        t1 ++ ' ' :: t2 ∧ isStopWord t1 = false ∧ isStopWord t2 = false :=
  ⟨by decide,
   generateNgrams_no_stop_words.1 [ngramExampleChunk] _ (by decide)⟩

-- ---------------------------------------------------------------------------
-- Theorem for claim C10
-- ---------------------------------------------------------------------------

theorem jsIndexOf_some_bounds {h n : Str} {start j : Nat}
    (hn : n ≠ []) (hj : jsIndexOf h n start = some j) :
    start ≤ j ∧ j + n.length ≤ h.length := by
  unfold jsIndexOf at hj
  rw [if_neg (by simpa using hn)] at hj
  have hpred := List.find?_some hj
  have hmem := List.mem_of_find?_eq_some hj
  have hjlt := List.mem_range.mp hmem
  simp only [Bool.and_eq_true, decide_eq_true_eq] at hpred
  have hpre : n <+: h.drop j := List.isPrefixOf_iff_prefix.mp hpred.2
  have hlen := hpre.length_le
  rw [List.length_drop] at hlen
  exact ⟨hpred.1, by omega⟩

theorem kwicScan_length_le (text ntext nkw : Str) (kwLen window : Nat)
    (srcName : Option Str) (hn : nkw ≠ []) :
    ∀ (fuel start : Nat),
      (kwicScan text ntext nkw kwLen window srcName fuel start).length ≤
        ntext.length - start := by
  intro fuel
  induction fuel with
  | zero => intro start; simp [kwicScan]
  | succ fuel ih =>
    intro start
    simp only [kwicScan]
    cases hj : jsIndexOf ntext nkw start with
    | none => simp
    | some j =>
      have hb := jsIndexOf_some_bounds hn hj
      have hlen1 : 1 ≤ nkw.length := by
        cases nkw with
        | nil => exact absurd rfl hn
        | cons c cs => simp
      have := ih (j + 1)
      simp only [List.length_cons]
      omega

/-- C10: for every chunk list, window size and non-empty keyword,
`generateKWIC` terminates with a finite result: the occurrence-scan loop
strictly advances the scan index past each occurrence's start, so each
chunk contributes at most its text length in records, and the total number
of records is bounded by the sum of the chunk text lengths. -/
theorem generateKWIC_length_bounded (chunks : List Chunk) (keyword : Str)
    (window : Nat) (h : keyword ≠ []) :
    (generateKWIC chunks keyword window).length ≤
      (chunks.map fun c => c.text.length).sum := by
  have hn : jsToLower keyword ≠ [] := by
    simpa [jsToLower] using h
  unfold generateKWIC
  have key : ∀ (chunks : List Chunk) (acc : List KWICRecord),
      (chunks.foldl
        (fun results c =>
          results ++
            kwicScan c.text (jsToLower c.text) (jsToLower keyword)
              keyword.length window c.sourceName (c.text.length + 1) 0)
        acc).length ≤ acc.length + (chunks.map fun c => c.text.length).sum := by
    intro chunks
    induction chunks with
    | nil => intro acc; simp
    | cons c rest ih =>
      intro acc
      have h1 := kwicScan_length_le c.text (jsToLower c.text)
        (jsToLower keyword) keyword.length window c.sourceName hn
        (c.text.length + 1) 0
      have h2 := ih (acc ++
        kwicScan c.text (jsToLower c.text) (jsToLower keyword)
          keyword.length window c.sourceName (c.text.length + 1) 0)
      simp only [List.foldl_cons, List.map_cons, List.sum_cons]
      simp only [List.length_append] at h2
      have h3 : (jsToLower c.text).length = c.text.length := by
        simp [jsToLower]
      omega
  simpa using key chunks []

/-- Witness for C10 at a concrete chunk list and keyword. -/
theorem generateKWIC_length_bounded_witness :
    (str "cat" ≠ ([] : Str)) ∧
    (generateKWIC [{ text := str "a cat sat near a cat", type := .PARAGRAPH }]
        (str "cat") 5).length ≤
      (([{ text := str "a cat sat near a cat", type := .PARAGRAPH }] : List Chunk).map
        fun c => c.text.length).sum :=
  ⟨by decide,
   generateKWIC_length_bounded
     [{ text := str "a cat sat near a cat", type := .PARAGRAPH }]
     (str "cat") 5 (by decide)⟩

-- ---------------------------------------------------------------------------
-- Helper lemmas: trimming
-- ---------------------------------------------------------------------------

theorem jsTrim_eq_nil_iff {l : Str} : jsTrim l = [] ↔ ∀ c ∈ l, isJsWs c := by
  unfold jsTrim
  rw [List.reverse_eq_nil_iff, List.dropWhile_eq_nil_iff]
  constructor
  · intro h c hc
    rw [← List.takeWhile_append_dropWhile isJsWs l] at hc
    rcases List.mem_append.mp hc with h1 | h1
    · exact List.mem_takeWhile_imp h1
    · exact h c (List.mem_reverse.mpr h1)
  · intro h c hc
    exact h c ((List.dropWhile_sublist isJsWs).mem (List.mem_reverse.mp hc))

theorem mem_jsTrim_of_not_ws {c : Char} {l : Str} (hc : c ∈ l)
    (hw : isJsWs c = false) : c ∈ jsTrim l := by
  unfold jsTrim
  rw [List.mem_reverse]
  have h1 : c ∈ l.dropWhile isJsWs := by
    rw [← List.takeWhile_append_dropWhile isJsWs l] at hc
    rcases List.mem_append.mp hc with h | h
    · have := List.mem_takeWhile_imp h
      rw [hw] at this
      simp at this
    · exact h
  have h2 : c ∈ (l.dropWhile isJsWs).reverse := List.mem_reverse.mpr h1
  rw [← List.takeWhile_append_dropWhile isJsWs ((l.dropWhile isJsWs).reverse)] at h2
  rcases List.mem_append.mp h2 with h | h
  · have := List.mem_takeWhile_imp h
    rw [hw] at this
    simp at this
  · exact h

theorem jsTrim_ne_nil_of_mem {c : Char} {l : Str} (hc : c ∈ l)
    (hw : isJsWs c = false) : jsTrim l ≠ [] := by
  intro h
  have := jsTrim_eq_nil_iff.mp h c hc
  rw [hw] at this
  simp at this

theorem exists_not_ws_of_jsTrim_ne_nil {l : Str} (h : jsTrim l ≠ []) :
    ∃ c ∈ l, isJsWs c = false := by
  have h1 : ¬ ∀ c ∈ l, isJsWs c := fun hall => h (jsTrim_eq_nil_iff.mpr hall)
  push_neg at h1
  rcases h1 with ⟨c, hc, hw⟩
  exact ⟨c, hc, by simpa using hw⟩

theorem jsTrim_jsTrim_ne_nil {l : Str} (h : jsTrim l ≠ []) :
    jsTrim (jsTrim l) ≠ [] := by
  rcases exists_not_ws_of_jsTrim_ne_nil h with ⟨c, hc, hw⟩
  exact jsTrim_ne_nil_of_mem (mem_jsTrim_of_not_ws hc hw) hw

theorem jsTrim_append_right_ne_nil {t s : Str} (h : jsTrim s ≠ []) :
    jsTrim (t ++ s) ≠ [] := by
  rcases exists_not_ws_of_jsTrim_ne_nil h with ⟨c, hc, hw⟩
  exact jsTrim_ne_nil_of_mem (List.mem_append.mpr (Or.inr hc)) hw

theorem isEmpty_false_iff {l : Str} : l.isEmpty = false ↔ l ≠ [] := by
  cases l <;> simp

-- ---------------------------------------------------------------------------
-- Helper lemmas: splitter pieces and fold invariants
-- ---------------------------------------------------------------------------

theorem splitRawText_trim_ne_nil {text : Str} {g : Granularity}
    (hg : g = .PARAGRAPH ∨ g = .LINE ∨ g = .SECTION ∨ g = .TURN)
    {t : Str} (ht : t ∈ splitRawText text g) : jsTrim t ≠ [] := by
  rcases hg with rfl | rfl | rfl | rfl <;>
  · simp only [splitRawText] at ht
    have h2 := (List.mem_filter.mp ht).2
    rw [Bool.not_eq_true'] at h2
    exact isEmpty_false_iff.mp h2

theorem foldl_append_inv {α β : Type} (P : β → Prop)
    (f : List β → α → List β)
    (hf : ∀ acc a, (∀ c ∈ acc, P c) → ∀ c ∈ f acc a, P c)
    (l : List α) :
    ∀ (acc : List β), (∀ c ∈ acc, P c) → ∀ c ∈ l.foldl f acc, P c := by
  induction l with
  | nil => intro acc h c hc; exact h c hc
  | cons a rest ih => intro acc h c hc; exact ih _ (hf acc a h) c hc

theorem foldl_pair_inv {α β σ : Type} (P : β → Prop)
    (f : σ × List β → α → σ × List β)
    (hf : ∀ st a, (∀ c ∈ st.2, P c) → ∀ c ∈ (f st a).2, P c)
    (l : List α) :
    ∀ (st : σ × List β), (∀ c ∈ st.2, P c) → ∀ c ∈ (l.foldl f st).2, P c := by
  induction l with
  | nil => intro st h c hc; exact h c hc
  | cons a rest ih => intro st h c hc; exact ih _ (hf st a h) c hc

-- ---------------------------------------------------------------------------
-- Helper lemmas: properties of segmentDoc
-- ---------------------------------------------------------------------------

theorem mem_ite_guard {α : Type} {G : Prop} [Decidable G] {x c : α}
    (h : c ∈ (if G then [x] else ([] : List α))) : G ∧ c = x := by
  by_cases hg : G
  · rw [if_pos hg] at h
    simp at h
    exact ⟨hg, h⟩
  · rw [if_neg hg] at h
    simp at h

theorem csvCombineRowChunks_props (strategy : Granularity)
    (doc : SourceDocument) (headers targetCols contextCols sentimentCols
    row : List Str) :
    ∀ c ∈ csvCombineRowChunks strategy doc headers targetCols contextCols
        sentimentCols row,
      c.sourceId = some doc.id ∧ jsTrim c.text ≠ [] := by
  intro c hc
  simp only [csvCombineRowChunks] at hc
  rcases mem_ite_guard hc with ⟨hg, hcx⟩
  subst hcx
  refine ⟨rfl, ?_⟩
  apply jsTrim_append_right_ne_nil
  rw [Bool.not_eq_true'] at hg
  exact isEmpty_false_iff.mp hg

theorem csvDistinctCellChunks_props (strategy : Granularity)
    (doc : SourceDocument) (headers contextCols sentimentCols row : List Str)
    (colName : Str) :
    ∀ c ∈ csvDistinctCellChunks strategy doc headers contextCols
        sentimentCols row colName,
      c.sourceId = some doc.id ∧ jsTrim c.text ≠ [] := by
  intro c hc
  rcases hidx : listIndexOf headers colName with _ | idx
  · simp only [csvDistinctCellChunks, hidx] at hc
    simp at hc
  · simp only [csvDistinctCellChunks, hidx] at hc
    rcases mem_ite_guard hc with ⟨hg, hcx⟩
    subst hcx
    have hb : ('[' : Char) ∈ str "[Column: " := by decide
    refine ⟨rfl, @jsTrim_ne_nil_of_mem '[' _ ?_ ?_⟩
    -- the text is built by left-associated appends; walk down to the
    -- "[Column: " component
    · exact List.mem_append.mpr (Or.inl (List.mem_append.mpr (Or.inl
        (List.mem_append.mpr (Or.inl (List.mem_append.mpr (Or.inl
          (List.mem_append.mpr (Or.inr hb)))))))))
    · decide

/-- Invariant transfer through the CSV rows fold of `segmentDoc`. -/
theorem csvRowsFold_inv (P : Chunk → Prop) (strategy : Granularity)
    (doc : SourceDocument)
    (headers targetCols contextCols sentimentCols : List Str) (hier : Bool)
    (hcomb : ∀ row, ∀ c ∈ csvCombineRowChunks strategy doc headers targetCols
      contextCols sentimentCols row, P c)
    (hdist : ∀ row colName, ∀ c ∈ csvDistinctCellChunks strategy doc headers
      contextCols sentimentCols row colName, P c)
    (rows : List (List Str)) :
    ∀ c ∈ rows.foldl
      (fun acc row =>
        if hier = false then
          acc ++ csvCombineRowChunks strategy doc headers targetCols
            contextCols sentimentCols row
        else
          targetCols.foldl
            (fun acc2 colName =>
              acc2 ++ csvDistinctCellChunks strategy doc headers contextCols
                sentimentCols row colName)
            acc)
      [], P c := by
  intro c hc
  refine foldl_append_inv P _ ?_ rows [] (by simp) c hc
  intro acc row hacc c' hc'
  by_cases hh : hier = false
  · rw [if_pos hh] at hc'
    rcases List.mem_append.mp hc' with h | h
    · exact hacc _ h
    · exact hcomb row c' h
  · rw [if_neg hh] at hc'
    refine foldl_append_inv P _ ?_ targetCols acc hacc c' hc'
    intro acc2 colName hacc2 c'' hc''
    rcases List.mem_append.mp hc'' with h | h
    · exact hacc2 _ h
    · exact hdist row colName c'' h

/-- Invariant transfer through the hierarchical sections fold of
`segmentDoc`. -/
theorem hierSectionsFold_inv (P : Chunk → Prop) (strategy : Granularity)
    (doc : SourceDocument) (lvl : Nat)
    (hsubsec : ∀ hdr sec, strategy = .SUBSECTION →
      (jsTrim sec).isEmpty = false →
      P { text := jsTrim sec, type := strategy, sourceId := some doc.id,
          sourceName := some (doc.name ++ str " > " ++ hdr) })
    (hinner : ∀ hdr sec seg, (jsTrim sec).isEmpty = false →
      seg ∈ splitRawText sec strategy →
      P { text := seg, type := strategy, sourceId := some doc.id,
          sourceName := some (doc.name ++ str " > " ++ hdr) })
    (sections : List Str) :
    ∀ c ∈ (sections.foldl
      (fun (st : Str × List Chunk) sec =>
        if (jsTrim sec).isEmpty then st
        else if headerTestL lvl sec then (headerTitle sec, st.2)
        else if strategy = .SUBSECTION then
          (st.1, st.2 ++
            [{ text := jsTrim sec, type := strategy,
               sourceId := some doc.id,
               sourceName := some (doc.name ++ str " > " ++ st.1) }])
        else
          (st.1, st.2 ++
            (splitRawText sec strategy).map fun seg =>
              { text := seg, type := strategy, sourceId := some doc.id,
                sourceName := some (doc.name ++ str " > " ++ st.1) }))
      (str "Intro / Untitled", [])).2, P c := by
  intro c hc
  refine foldl_pair_inv P _ ?_ sections _ (by simp) c hc
  intro st sec hst c' hc'
  by_cases h1 : (jsTrim sec).isEmpty = true
  · rw [if_pos h1] at hc'
    exact hst _ hc'
  · rw [if_neg h1] at hc'
    by_cases h2 : headerTestL lvl sec = true
    · rw [if_pos h2] at hc'
      exact hst _ hc'
    · rw [if_neg h2] at hc'
      by_cases h3 : strategy = .SUBSECTION
      · rw [if_pos h3] at hc'
        rcases List.mem_append.mp hc' with h | h
        · exact hst _ h
        · simp only [List.mem_singleton] at h
          subst h
          exact hsubsec st.1 sec h3 (by simpa using h1)
      · rw [if_neg h3] at hc'
        rcases List.mem_append.mp hc' with h | h
        · exact hst _ h
        · rcases List.mem_map.mp h with ⟨seg, hseg, hse⟩
          subst hse
          exact hinner st.1 sec seg (by simpa using h1) hseg

theorem segmentDoc_sourceId (strategy : Granularity)
    (cfg : Option CsvSegmentationConfig) (hier : Bool) (lvl : Nat)
    (doc : SourceDocument) :
    ∀ c ∈ segmentDoc strategy cfg hier lvl doc, c.sourceId = some doc.id := by
  intro c hc
  unfold segmentDoc at hc
  by_cases hf : strategy = .FILE
  · rw [if_pos hf] at hc
    simp at hc
    rw [hc]
  · rw [if_neg hf] at hc
    by_cases hcsv : doc.type = .csv
    · rw [if_pos hcsv] at hc
      exact csvRowsFold_inv (fun c => c.sourceId = some doc.id) strategy doc
        _ _ _ _ hier
        (fun row c h => (csvCombineRowChunks_props _ _ _ _ _ _ _ c h).1)
        (fun row colName c h =>
          (csvDistinctCellChunks_props _ _ _ _ _ _ _ c h).1)
        _ c hc
    · rw [if_neg hcsv] at hc
      by_cases hh : hier = true
      · rw [if_pos hh] at hc
        exact hierSectionsFold_inv (fun c => c.sourceId = some doc.id)
          strategy doc _
          (fun hdr sec _ _ => rfl)
          (fun hdr sec seg _ _ => rfl)
          _ c hc
      · rw [if_neg hh] at hc
        rcases List.mem_map.mp hc with ⟨t, ht, hte⟩
        rw [← hte]

theorem segmentDoc_trim_ne_nil {strategy : Granularity}
    (hg : strategy = .PARAGRAPH ∨ strategy = .LINE ∨ strategy = .SECTION ∨
      strategy = .TURN)
    (cfg : Option CsvSegmentationConfig) (hier : Bool) (lvl : Nat)
    (doc : SourceDocument) :
    ∀ c ∈ segmentDoc strategy cfg hier lvl doc, jsTrim c.text ≠ [] := by
  have hf : strategy ≠ .FILE := by
    rcases hg with rfl | rfl | rfl | rfl <;> simp
  have hsub : strategy ≠ .SUBSECTION := by
    rcases hg with rfl | rfl | rfl | rfl <;> simp
  intro c hc
  unfold segmentDoc at hc
  rw [if_neg hf] at hc
  by_cases hcsv : doc.type = .csv
  · rw [if_pos hcsv] at hc
    exact csvRowsFold_inv (fun c => jsTrim c.text ≠ []) strategy doc
      _ _ _ _ hier
      (fun row c h => (csvCombineRowChunks_props _ _ _ _ _ _ _ c h).2)
      (fun row colName c h =>
        (csvDistinctCellChunks_props _ _ _ _ _ _ _ c h).2)
      _ c hc
  · rw [if_neg hcsv] at hc
    by_cases hh : hier = true
    · rw [if_pos hh] at hc
      exact hierSectionsFold_inv (fun c => jsTrim c.text ≠ [])
        strategy doc _
        (fun hdr sec hss _ => absurd hss hsub)
        (fun hdr sec seg _ hseg => splitRawText_trim_ne_nil hg hseg)
        _ c hc
    · rw [if_neg hh] at hc
      rcases List.mem_map.mp hc with ⟨t, ht, hte⟩
      rw [← hte]
      exact jsTrim_jsTrim_ne_nil (splitRawText_trim_ne_nil hg ht)

-- ---------------------------------------------------------------------------
-- Helper lemmas: positions in a flattened list of blocks
-- ---------------------------------------------------------------------------

theorem foldl_append_eq_flatten {α β : Type} (f : α → List β) (l : List α) :
    ∀ acc, l.foldl (fun cs a => cs ++ f a) acc = acc ++ (l.map f).flatten := by
  induction l with
  | nil => intro acc; simp
  | cons a rest ih => intro acc; simp [ih]

theorem performSegmentation_eq_flatten (docs : List SourceDocument)
    (strategy : Granularity) (cfg : Option CsvSegmentationConfig)
    (hier : Bool) (lvl : Nat) :
    performSegmentation docs strategy cfg hier lvl =
      (docs.map (segmentDoc strategy cfg hier lvl)).flatten := by
  unfold performSegmentation
  simpa using foldl_append_eq_flatten (segmentDoc strategy cfg hier lvl) docs []

theorem csvFold_eq_byRows (strategy : Granularity) (doc : SourceDocument)
    (headers targetCols contextCols sentimentCols : List Str) (hier : Bool)
    (rows : List (List Str)) :
    rows.foldl
      (fun acc row =>
        if hier = false then
          acc ++ csvCombineRowChunks strategy doc headers targetCols
            contextCols sentimentCols row
        else
          targetCols.foldl
            (fun acc2 colName =>
              acc2 ++ csvDistinctCellChunks strategy doc headers contextCols
                sentimentCols row colName)
            acc)
      [] =
    (rows.map (csvRowChunks strategy doc headers targetCols contextCols
      sentimentCols hier)).flatten := by
  have hfun : (fun (acc : List Chunk) row =>
      if hier = false then
        acc ++ csvCombineRowChunks strategy doc headers targetCols
          contextCols sentimentCols row
      else
        targetCols.foldl
          (fun acc2 colName =>
            acc2 ++ csvDistinctCellChunks strategy doc headers contextCols
              sentimentCols row colName)
          acc) =
      (fun acc row => acc ++ csvRowChunks strategy doc headers targetCols
        contextCols sentimentCols hier row) := by
    funext acc row
    by_cases hh : hier = false
    · rw [if_pos hh]
      simp only [csvRowChunks]
      rw [if_pos hh]
    · rw [if_neg hh]
      simp only [csvRowChunks]
      rw [if_neg hh]
      exact foldl_append_eq_flatten _ targetCols acc
  rw [hfun]
  simpa using foldl_append_eq_flatten
    (csvRowChunks strategy doc headers targetCols contextCols sentimentCols
      hier)
    rows []

theorem hierFold_eq_blocks (strategy : Granularity) (doc : SourceDocument)
    (lvl : Nat) (sections : List Str) :
    ∀ (hdr : Str) (acc : List Chunk),
      (sections.foldl
        (fun (st : Str × List Chunk) sec =>
          if (jsTrim sec).isEmpty then st
          else if headerTestL lvl sec then (headerTitle sec, st.2)
          else if strategy = .SUBSECTION then
            (st.1, st.2 ++
              [{ text := jsTrim sec, type := strategy,
                 sourceId := some doc.id,
                 sourceName := some (doc.name ++ str " > " ++ st.1) }])
          else
            (st.1, st.2 ++
              (splitRawText sec strategy).map fun seg =>
                { text := seg, type := strategy, sourceId := some doc.id,
                  sourceName := some (doc.name ++ str " > " ++ st.1) }))
        (hdr, acc)).2 =
      acc ++ (hierSectionBlocks strategy doc lvl hdr sections).flatten := by
  induction sections with
  | nil =>
    intro hdr acc
    simp [hierSectionBlocks]
  | cons sec rest ih =>
    intro hdr acc
    simp only [List.foldl_cons, hierSectionBlocks]
    by_cases h1 : (jsTrim sec).isEmpty = true
    · rw [if_pos h1, if_pos h1]
      rw [ih hdr acc]
      simp
    · rw [if_neg h1, if_neg h1]
      by_cases h2 : headerTestL lvl sec = true
      · rw [if_pos h2, if_pos h2]
        rw [ih (headerTitle sec) acc]
        simp
      · rw [if_neg h2, if_neg h2]
        by_cases h3 : strategy = .SUBSECTION
        · rw [if_pos h3]
          rw [ih]
          simp [hierContentChunks, h3, List.append_assoc]
        · rw [if_neg h3]
          rw [ih]
          simp [hierContentChunks, h3, List.append_assoc]

theorem flatten_get_block {α : Type} :
    ∀ (ls : List (List α)) (p : Nat) (hp : p < ls.flatten.length),
      ∃ k, ∃ hk : k < ls.length, ∃ off, ∃ hoff : off < (ls.get ⟨k, hk⟩).length,
        p = ((ls.take k).map List.length).sum + off ∧
        ls.flatten.get ⟨p, hp⟩ = (ls.get ⟨k, hk⟩).get ⟨off, hoff⟩ := by
  intro ls
  induction ls with
  | nil => intro p hp; simp at hp
  | cons l rest ih =>
    intro p hp
    by_cases h : p < l.length
    · refine ⟨0, by simp, p, h, by simp, ?_⟩
      show ((l ++ rest.flatten).get ⟨p, by simpa using hp⟩) = l.get ⟨p, h⟩
      simp [List.get_eq_getElem, List.getElem_append_left h]
    · have hp' : p - l.length < rest.flatten.length := by
        have h2 : (l :: rest).flatten.length = l.length + rest.flatten.length := by
          simp [List.flatten_cons]
        omega
      rcases ih (p - l.length) hp' with ⟨k, hk, off, hoff, hsum, hget⟩
      refine ⟨k + 1, by simpa using Nat.succ_lt_succ hk, off, hoff, ?_, ?_⟩
      · simp only [List.take_succ_cons, List.map_cons, List.sum_cons]
        omega
      · show ((l ++ rest.flatten).get ⟨p, by simpa using hp⟩) = _
        simp only [List.get_eq_getElem] at hget ⊢
        rw [List.getElem_append_right (by omega)]
        exact hget

theorem sumTake_succ {α : Type} (ls : List (List α)) {k : Nat}
    (hk : k < ls.length) :
    ((ls.take (k + 1)).map List.length).sum =
      ((ls.take k).map List.length).sum + (ls.get ⟨k, hk⟩).length := by
  have h1 : ls.take (k + 1) = ls.take k ++ [ls.get ⟨k, hk⟩] := by
    rw [List.take_succ, List.getElem?_eq_getElem hk]
    simp [List.get_eq_getElem]
  rw [h1, List.map_append, List.sum_append]
  simp [List.get_eq_getElem]

theorem sumTake_mono {α : Type} (ls : List (List α)) {i j : Nat} (hij : i ≤ j) :
    ((ls.take i).map List.length).sum ≤ ((ls.take j).map List.length).sum := by
  induction j with
  | zero =>
    have : i = 0 := by omega
    subst this
    exact Nat.le_refl _
  | succ j ihj =>
    rcases Nat.lt_or_ge i (j + 1) with h | h
    · have h1 := ihj (by omega)
      have h2 : ((ls.take j).map List.length).sum ≤
          ((ls.take (j + 1)).map List.length).sum := by
        rw [List.take_succ]
        simp
      omega
    · have : i = j + 1 := by omega
      subst this
      exact Nat.le_refl _

-- ---------------------------------------------------------------------------
-- Theorems for claim C1
-- ---------------------------------------------------------------------------

/-- C1 counterexample: with the explicit whole-document granularity
(`FILE`) a document whose content is the empty string produces exactly one
chunk, and that chunk's text is empty after trimming — refuting "every
chunk's text is non-empty after trimming" for the full configuration
space. -/
theorem performSegmentation_file_empty_chunk :
    (performSegmentation
        [{ id := str "d", name := str "empty", content := [],
           type := .text, csvHeaders := none }]
        .FILE none false 1).map (fun c => jsTrim c.text) = [[]] := by
  decide

/-- C1 amended: for the granularities whose flat splitter filters blank
pieces — paragraph, line, section and turn — every chunk produced by
`performSegmentation` (through the tabular, hierarchical or flat paths,
for any documents and configuration) has text that is non-empty after
trimming.  The guarantee does not extend to `FILE` (whole, untrimmed
content), to sentence splitting (whose regex-match pieces are not
filtered), or to the unhandled-granularity fallback, where blank content
passes through. -/
theorem performSegmentation_trim_ne_nil (docs : List SourceDocument)
    {strategy : Granularity} (cfg : Option CsvSegmentationConfig)
    (hier : Bool) (lvl : Nat)
    (hg : strategy = .PARAGRAPH ∨ strategy = .LINE ∨ strategy = .SECTION ∨
      strategy = .TURN) :
    ∀ c ∈ performSegmentation docs strategy cfg hier lvl,
      jsTrim c.text ≠ [] := by
  intro c hc
  rw [performSegmentation_eq_flatten] at hc
  rcases List.mem_flatten.mp hc with ⟨blk, hblk, hcblk⟩
  rcases List.mem_map.mp hblk with ⟨doc, hdoc, hfd⟩
  subst hfd
  exact segmentDoc_trim_ne_nil hg cfg hier lvl doc c hcblk

/-- Witness for C1 at a concrete two-paragraph document. -/
theorem performSegmentation_trim_ne_nil_witness :
    (Granularity.PARAGRAPH = Granularity.PARAGRAPH ∨
      Granularity.PARAGRAPH = Granularity.LINE ∨
      Granularity.PARAGRAPH = Granularity.SECTION ∨
      Granularity.PARAGRAPH = Granularity.TURN) ∧
    ({ text := str "hello", type := Granularity.PARAGRAPH,
       sourceId := some (str "d"), sourceName := some (str "n"),
       tags := [] } : Chunk) ∈
      performSegmentation
        [{ id := str "d", name := str "n", content := str "hello\n\nworld",
           type := .text, csvHeaders := none }]
        Granularity.PARAGRAPH none false 1 ∧
    jsTrim (str "hello") ≠ [] := by
  refine ⟨Or.inl rfl, by decide, ?_⟩
  exact performSegmentation_trim_ne_nil
    [{ id := str "d", name := str "n", content := str "hello\n\nworld",
       type := .text, csvHeaders := none }]
    none false 1 (Or.inl rfl)
    { text := str "hello", type := Granularity.PARAGRAPH,
      sourceId := some (str "d"), sourceName := some (str "n"), tags := [] }
    (by decide)

-- ---------------------------------------------------------------------------
-- Theorem for claim C2
-- ---------------------------------------------------------------------------

/-- Positional document-level ordering: when the documents carry pairwise
distinct ids, any chunk whose provenance is `docs[i]` sits at a strictly
earlier position than any chunk whose provenance is `docs[j]`, for
`i < j`. -/
theorem performSegmentation_doc_order_positional (docs : List SourceDocument)
    (strategy : Granularity) (cfg : Option CsvSegmentationConfig)
    (hier : Bool) (lvl : Nat)
    (hids : docs.Pairwise fun a b => a.id ≠ b.id)
    (i j : Nat) (hi : i < docs.length) (hj : j < docs.length) (hij : i < j)
    (p q : Nat)
    (hp : p < (performSegmentation docs strategy cfg hier lvl).length)
    (hq : q < (performSegmentation docs strategy cfg hier lvl).length)
    (hpc : ((performSegmentation docs strategy cfg hier lvl).get
        ⟨p, hp⟩).sourceId = some ((docs.get ⟨i, hi⟩).id))
    (hqc : ((performSegmentation docs strategy cfg hier lvl).get
        ⟨q, hq⟩).sourceId = some ((docs.get ⟨j, hj⟩).id)) :
    p < q := by
  have heq := performSegmentation_eq_flatten docs strategy cfg hier lvl
  revert hp hq hpc hqc
  rw [heq]
  intro hp hq hpc hqc
  set ls := docs.map (segmentDoc strategy cfg hier lvl) with hls
  have hlslen : ls.length = docs.length := by simp [hls]
  rcases flatten_get_block ls p hp with ⟨kp, hkp, offp, hoffp, hsump, hgetp⟩
  rcases flatten_get_block ls q hq with ⟨kq, hkq, offq, hoffq, hsumq, hgetq⟩
  have hkpd : kp < docs.length := by omega
  have hkqd : kq < docs.length := by omega
  -- identify each block's document
  have hblockp : ls.get ⟨kp, hkp⟩ =
      segmentDoc strategy cfg hier lvl (docs.get ⟨kp, hkpd⟩) := by
    simp [hls, List.get_eq_getElem]
  have hblockq : ls.get ⟨kq, hkq⟩ =
      segmentDoc strategy cfg hier lvl (docs.get ⟨kq, hkqd⟩) := by
    simp [hls, List.get_eq_getElem]
  have hsidp : ((ls.get ⟨kp, hkp⟩).get ⟨offp, hoffp⟩).sourceId =
      some ((docs.get ⟨kp, hkpd⟩).id) := by
    refine segmentDoc_sourceId strategy cfg hier lvl _ _ ?_
    rw [← hblockp]
    exact (ls.get ⟨kp, hkp⟩).get_mem offp hoffp
  have hsidq : ((ls.get ⟨kq, hkq⟩).get ⟨offq, hoffq⟩).sourceId =
      some ((docs.get ⟨kq, hkqd⟩).id) := by
    refine segmentDoc_sourceId strategy cfg hier lvl _ _ ?_
    rw [← hblockq]
    exact (ls.get ⟨kq, hkq⟩).get_mem offq hoffq
  have hidp : (docs.get ⟨kp, hkpd⟩).id = (docs.get ⟨i, hi⟩).id := by
    have h0 := hpc
    rw [hgetp, hsidp] at h0
    exact Option.some.inj h0
  have hidq : (docs.get ⟨kq, hkqd⟩).id = (docs.get ⟨j, hj⟩).id := by
    have h0 := hqc
    rw [hgetq, hsidq] at h0
    exact Option.some.inj h0
  -- distinct ids force each block index to equal the claimed index
  have hpair := List.pairwise_iff_get.mp hids
  have hkpi : kp = i := by
    by_contra hne
    rcases Nat.lt_or_ge kp i with h | h
    · exact hpair ⟨kp, hkpd⟩ ⟨i, hi⟩ (Fin.mk_lt_mk.mpr h) hidp
    · exact hpair ⟨i, hi⟩ ⟨kp, hkpd⟩ (Fin.mk_lt_mk.mpr (by omega)) hidp.symm
  have hkqj : kq = j := by
    by_contra hne
    rcases Nat.lt_or_ge kq j with h | h
    · exact hpair ⟨kq, hkqd⟩ ⟨j, hj⟩ (Fin.mk_lt_mk.mpr h) hidq
    · exact hpair ⟨j, hj⟩ ⟨kq, hkqd⟩ (Fin.mk_lt_mk.mpr (by omega)) hidq.symm
  -- position arithmetic: p < sum(take (kp+1)) ≤ sum(take kq) ≤ q
  have hstep := sumTake_succ ls hkp
  have hmono : ((ls.take (kp + 1)).map List.length).sum ≤
      ((ls.take kq).map List.length).sum := sumTake_mono ls (by omega)
  omega

/-- C2: chunk order in the sequence returned by `performSegmentation` is
source document order first, then row/heading order within a document,
then intra-section split order.  Stated in four parts: (1) the output is
the concatenation of the per-document chunk blocks in document order;
(2) positionally, with pairwise-distinct document ids, any chunk of
`docs[i]` sits strictly before any chunk of `docs[j]` when `i < j`;
(3) a tabular document's block is the concatenation of its per-row
blocks in source row order, each row's block listing its target columns
in configured order (`csvRowChunks`); (4) a hierarchical document's
block is the concatenation of its per-section blocks in section order,
each content section contributing its inner split pieces in split order
(`hierSectionBlocks`/`hierContentChunks`). -/
theorem performSegmentation_chunk_order :
    (∀ (docs : List SourceDocument) (strategy : Granularity)
        (cfg : Option CsvSegmentationConfig) (hier : Bool) (lvl : Nat),
      performSegmentation docs strategy cfg hier lvl =
        (docs.map (segmentDoc strategy cfg hier lvl)).flatten) ∧
    (∀ (docs : List SourceDocument) (strategy : Granularity)
        (cfg : Option CsvSegmentationConfig) (hier : Bool) (lvl : Nat),
      docs.Pairwise (fun a b => a.id ≠ b.id) →
      ∀ (i j : Nat) (hi : i < docs.length) (hj : j < docs.length),
        i < j →
        ∀ (p q : Nat)
          (hp : p < (performSegmentation docs strategy cfg hier lvl).length)
          (hq : q < (performSegmentation docs strategy cfg hier lvl).length),
          ((performSegmentation docs strategy cfg hier lvl).get
              ⟨p, hp⟩).sourceId = some ((docs.get ⟨i, hi⟩).id) →
          ((performSegmentation docs strategy cfg hier lvl).get
              ⟨q, hq⟩).sourceId = some ((docs.get ⟨j, hj⟩).id) →
          p < q) ∧
    (∀ (strategy : Granularity) (cfg : Option CsvSegmentationConfig)
        (hier : Bool) (lvl : Nat) (doc : SourceDocument),
      strategy ≠ .FILE → doc.type = .csv →
      segmentDoc strategy cfg hier lvl doc =
        segmentDocCsvByRows strategy cfg hier doc) ∧
    (∀ (strategy : Granularity) (cfg : Option CsvSegmentationConfig)
        (hier : Bool) (lvl : Nat) (doc : SourceDocument),
      strategy ≠ .FILE → doc.type ≠ .csv → hier = true →
      segmentDoc strategy cfg hier lvl doc =
        segmentDocHierBySections strategy lvl doc) := by
  refine ⟨performSegmentation_eq_flatten, ?_, ?_, ?_⟩
  · intro docs strategy cfg hier lvl hids i j hi hj hij p q hp hq hpc hqc
    exact performSegmentation_doc_order_positional docs strategy cfg hier lvl
      hids i j hi hj hij p q hp hq hpc hqc
  · intro strategy cfg hier lvl doc hf hcsv
    simp only [segmentDoc, segmentDocCsvByRows]
    rw [if_neg hf, if_pos hcsv]
    apply csvFold_eq_byRows
  · intro strategy cfg hier lvl doc hf hcsv hh
    simp only [segmentDoc, segmentDocHierBySections]
    rw [if_neg hf, if_neg hcsv, if_pos hh]
    rw [hierFold_eq_blocks]
    simp

/-- A concrete two-row CSV document for the C2 witness. -/
def orderWitnessCsvDoc : SourceDocument :=
  { id := str "c", name := str "T", content := str "h1,h2\nx,y\nu,v",
    type := .csv, csvHeaders := some [str "h1", str "h2"] }

/-- A concrete two-section Markdown document for the C2 witness. -/
def orderWitnessHierDoc : SourceDocument :=
  { id := str "m", name := str "M", content := str "## A\nfoo\n\n## B\nbar",
    type := .markdown, csvHeaders := none }

/-- Witness for C2: the positional part at two one-paragraph documents,
the tabular part at a two-row CSV document, and the hierarchical part at
a two-section Markdown document. -/
theorem performSegmentation_chunk_order_witness :
    ([{ id := str "A", name := str "A", content := str "a",
        type := DocType.text, csvHeaders := none },
      { id := str "B", name := str "B", content := str "b",
        type := DocType.text, csvHeaders := none }] :
      List SourceDocument).Pairwise (fun a b => a.id ≠ b.id) ∧
    (0 : Nat) < 1 ∧
    (Granularity.ROW_COMBINED ≠ Granularity.FILE ∧
      orderWitnessCsvDoc.type = DocType.csv ∧
      segmentDoc Granularity.ROW_COMBINED none false 1 orderWitnessCsvDoc =
        segmentDocCsvByRows Granularity.ROW_COMBINED none false
          orderWitnessCsvDoc) ∧
    (Granularity.PARAGRAPH ≠ Granularity.FILE ∧
      orderWitnessHierDoc.type ≠ DocType.csv ∧
      segmentDoc Granularity.PARAGRAPH none true 2 orderWitnessHierDoc =
        segmentDocHierBySections Granularity.PARAGRAPH 2
          orderWitnessHierDoc) := by
  refine ⟨by decide, ?_, ⟨by decide, by decide, ?_⟩, ⟨by decide, by decide, ?_⟩⟩
  · exact performSegmentation_chunk_order.2.1
      [{ id := str "A", name := str "A", content := str "a",
         type := DocType.text, csvHeaders := none },
       { id := str "B", name := str "B", content := str "b",
         type := DocType.text, csvHeaders := none }]
      Granularity.PARAGRAPH none false 1 (by decide)
      0 1 (by decide) (by decide) (by decide)
      0 1 (by decide) (by decide) (by decide) (by decide)
  · exact performSegmentation_chunk_order.2.2.1
      Granularity.ROW_COMBINED none false 1 orderWitnessCsvDoc
      (by decide) (by decide)
  · exact performSegmentation_chunk_order.2.2.2
      Granularity.PARAGRAPH none true 2 orderWitnessHierDoc
      (by decide) (by decide) (by decide)

-- ---------------------------------------------------------------------------
-- Theorems for claim C3
-- ---------------------------------------------------------------------------

/-- The document of the spec's hierarchical-split example. -/
def hierExampleDoc : SourceDocument :=
  { id := str "d1", name := str "Doc",
    content := str "# Title\n\n## A\nfoo\n\n## B\nbar",
    type := .markdown, csvHeaders := none }

/-- C3 counterexample: hierarchically segmenting the example document at
split level 2 with inner granularity paragraph yields three chunks, not
the two the claim states — the title line is ordinary content of the
implicit Intro section and becomes a chunk. -/
theorem hierExample_three_chunks :
    (performSegmentation [hierExampleDoc] .PARAGRAPH none true 2).length
      = 3 := by
  decide

/-- C3 amended: the split yields exactly three chunks: the title line as
an `"Doc > Intro / Untitled"` chunk with text `"# Title\n"`, then
`"Doc > A"` with text `"\nfoo\n"` and `"Doc > B"` with text `"\nbar"`.
Section bodies keep their surrounding line feeds (hierarchical mode does
not trim inner pieces); they trim to `"foo"` and `"bar"`. -/
theorem hierExample_chunks :
    performSegmentation [hierExampleDoc] .PARAGRAPH none true 2 =
      [{ text := str "# Title\n", type := .PARAGRAPH,
         sourceId := some (str "d1"),
         sourceName := some (str "Doc > Intro / Untitled") },
       { text := str "\nfoo\n", type := .PARAGRAPH,
         sourceId := some (str "d1"),
         sourceName := some (str "Doc > A") },
       { text := str "\nbar", type := .PARAGRAPH,
         sourceId := some (str "d1"),
         sourceName := some (str "Doc > B") }] := by
  decide

-- ---------------------------------------------------------------------------
-- Theorems for claim C4
-- ---------------------------------------------------------------------------

/-- C4 counterexample: on a document containing no speaker-pattern line
(`"a\n\nb"`), turn splitting in `performSegmentation` returns the whole
text as one chunk; it does not fall back to paragraph splitting, which
would have produced two chunks. -/
theorem performSegmentation_turn_no_fallback :
    (performSegmentation
        [{ id := str "d", name := str "n", content := str "a\n\nb",
           type := .text, csvHeaders := none }]
        .TURN none false 1).map (fun c => c.text) = [str "a\n\nb"] ∧
    (performSegmentation
        [{ id := str "d", name := str "n", content := str "a\n\nb",
           type := .text, csvHeaders := none }]
        .PARAGRAPH none false 1).length = 2 := by
  constructor
  · decide
  · decide

theorem splitSpeaker_no_match (text : Str) (h : speakerTest text = false) :
    splitSpeaker text = [text] := by
  suffices hgen : ∀ (s acc : Str), speakerTest.go s = false →
      splitSpeaker.go acc s = [acc.reverse ++ s] by
    have := hgen text [] (by simpa [speakerTest] using h)
    simpa [splitSpeaker] using this
  intro s
  induction s with
  | nil => intro acc h2; simp [splitSpeaker.go]
  | cons c rest ih =>
    intro acc h2
    simp only [speakerTest.go, Bool.or_eq_false_iff] at h2
    rcases h2 with ⟨hcl, hrest⟩
    simp only [splitSpeaker.go, hcl]
    rw [ih (c :: acc) hrest]
    simp

/-- C4 amended: `performSegmentation`'s turn splitting never falls back:
for any non-tabular flat document whose content has no speaker-pattern
break and non-blank content, the result is exactly one chunk holding the
whole trimmed content.  The paragraph fallback exists only in the
separate `splitSingleText` utility, and only when the text additionally
contains no colon at all. -/
theorem turn_fallback_characterization :
    (∀ text idv nm,
      speakerTest text = false → jsTrim text ≠ [] →
      (performSegmentation
          [{ id := idv, name := nm, content := text, type := .text,
             csvHeaders := none }]
          .TURN none false 1).map (fun c => c.text) = [jsTrim text]) ∧
    (∀ text,
      speakerTest text = false → jsIncludes text (str ":") = false →
      splitSingleText text .TURN = splitSingleText text .PARAGRAPH) := by
  constructor
  · intro text idv nm hsp hne
    have hone : splitRawText text .TURN = [text] := by
      simp only [splitRawText]
      rw [splitSpeaker_no_match text hsp]
      have h3 : (jsTrim text).isEmpty = false := isEmpty_false_iff.mpr hne
      simp [h3]
    simp [performSegmentation, segmentDoc, hone]
  · intro text hsp hcol
    simp [splitSingleText, hsp, hcol]

/-- Witness for C4 at the concrete text `"hello\nworld"` (no speaker
pattern, no colon, non-blank). -/
theorem turn_fallback_characterization_witness :
    speakerTest (str "hello\nworld") = false ∧
    jsTrim (str "hello\nworld") ≠ [] ∧
    jsIncludes (str "hello\nworld") (str ":") = false ∧
    (performSegmentation
        [{ id := str "d", name := str "n", content := str "hello\nworld",
           type := .text, csvHeaders := none }]
        .TURN none false 1).map (fun c => c.text) =
      [jsTrim (str "hello\nworld")] ∧
    splitSingleText (str "hello\nworld") .TURN =
      splitSingleText (str "hello\nworld") .PARAGRAPH :=
  ⟨by decide, by decide, by decide,
   turn_fallback_characterization.1 (str "hello\nworld") (str "d") (str "n")
     (by decide) (by decide),
   turn_fallback_characterization.2 (str "hello\nworld")
     (by decide) (by decide)⟩

-- ---------------------------------------------------------------------------
-- Theorems for claim C8
-- ---------------------------------------------------------------------------

/-- Modelled from the spec: "content equal to the original modulo
leading/trailing blank lines" — the content with leading and trailing
blank (whitespace-only) lines removed, used to compare the line-split
round-trip against the spec's wording. -/
def specStripOuterBlankLines (content : Str) : Str :=
  let ls := splitChar '\n' content
  let ls := ls.dropWhile fun l => (jsTrim l).isEmpty
  let ls := (ls.reverse.dropWhile fun l => (jsTrim l).isEmpty).reverse
  joinSep ['\n'] ls

/-- C8 counterexample: for content `"a\n\nb"` (no leading or trailing
blank lines), joining the line-split chunks with a line break gives
`"a\nb"`: the interior blank line is dropped by the line splitter, so the
round-trip does not equal the original modulo leading/trailing blank
lines. -/
theorem line_roundtrip_counterexample :
    joinSep ['\n']
      ((performSegmentation
          [{ id := str "d", name := str "n", content := str "a\n\nb",
             type := .text, csvHeaders := none }]
          .LINE none false 1).map (fun c => c.text)) = str "a\nb" ∧
    specStripOuterBlankLines (str "a\n\nb") = str "a\n\nb" ∧
    str "a\nb" ≠ str "a\n\nb" := by
  refine ⟨by decide, by decide, by decide⟩

/-- C8 amended: joining the `line`-split chunks of a non-tabular document
with a single line break yields the original content with every blank
(whitespace-only) line removed — interior ones included — and each
remaining line trimmed of leading/trailing whitespace. -/
theorem line_split_roundtrip (idv nm content : Str) (dt : DocType)
    (hdt : dt ≠ .csv) :
    joinSep ['\n']
      ((performSegmentation
          [{ id := idv, name := nm, content := content, type := dt,
             csvHeaders := none }]
          .LINE none false 1).map (fun c => c.text)) =
    joinSep ['\n']
      (((splitChar '\n' content).filter fun l => !(jsTrim l).isEmpty).map
        jsTrim) := by
  simp [performSegmentation, segmentDoc, splitRawText, hdt, Function.comp_def]

/-- Witness for C8 at the content `" a \nb"` with a plain-text document. -/
theorem line_split_roundtrip_witness :
    (DocType.text ≠ DocType.csv) ∧
    joinSep ['\n']
      ((performSegmentation
          [{ id := str "d", name := str "n", content := str " a \nb",
             type := DocType.text, csvHeaders := none }]
          .LINE none false 1).map (fun c => c.text)) =
    joinSep ['\n']
      (((splitChar '\n' (str " a \nb")).filter
        fun l => !(jsTrim l).isEmpty).map jsTrim) :=
  ⟨by decide,
   line_split_roundtrip (str "d") (str "n") (str " a \nb") DocType.text
     (by decide)⟩

end SemanticUnweaver
